import Mathlib

/-!
Shallow embedding of the `microprod` backend (`src/src-tauri/src/lib.rs`).

The visible code is two Tauri commands, `write_json_file` and
`read_json_file`.  Each resolves an application directory from the process
environment (`APPDATA`, then `HOME`, then the current working directory),
and persists / reloads a `serde_json::Value` as pretty-printed JSON text in
a file inside that directory.

The embedding has three layers:

* a model of `serde_json::Value` together with executable models of
  `serde_json::to_string_pretty` and `serde_json::from_str` (renderer and
  parser over `List Char`), faithful to serde with two documented
  restrictions: numbers are exact integers (`f64` payloads and the float
  fallback for out-of-range literals are outside scope), and `\uXXXX`
  escapes for surrogate pairs are rejected by the model parser (the model
  renderer never emits them);
* a model of the consulted process state (environment variables and the
  result of `std::env::current_dir()`) and of the filesystem calls
  (`create_dir_all`, `fs::write`, `Path::exists`, `fs::read_to_string`),
  with OS-level failures injected through an oracle;
* the two commands, translated line by line from the source, returning
  `none` exactly where the source would panic (the `.unwrap()` on
  `std::env::current_dir()`).
-/

namespace Ucanduit

/-- JSON value as carried by the backend commands: the shape of a
`serde_json::Value`.  Strings are lists of unicode scalar values.  Numbers
are modelled as exact integers; `canonJson` marks the fragment on which the
model coincides with serde (integers in the `i64`/`u64` window — floats are
outside the embedding).  Object members are an association list; the
`serde_json::Map` invariant (a `BTreeMap`: keys strictly sorted, no
duplicates) is also part of `canonJson`. -/
inductive Json where
  | null
  | bool (b : Bool)
  | num (n : Int)
  | str (s : List Char)
  | arr (items : List Json)
  | obj (members : List (List Char × Json))

/-- Byte-lexicographic order on object keys, as `BTreeMap<String, _>` uses;
on scalar values, codepoint order and UTF-8 byte order agree. -/
def keyLt : List Char → List Char → Bool
  | [], [] => false
  | [], _ :: _ => true
  | _ :: _, [] => false
  | a :: as, b :: bs =>
    if a.toNat < b.toNat then true
    else if a.toNat = b.toNat then keyLt as bs
    else false

/-- Adjacent keys of an object strictly increase (the `BTreeMap` invariant). -/
def sortedKeys : List (List Char × Json) → Bool
  | [] => true
  | [_] => true
  | (k1, _) :: (k2, v2) :: t => keyLt k1 k2 && sortedKeys ((k2, v2) :: t)

mutual

/-- Values on which the model codec coincides with serde_json: every number
lies in the window serde keeps exact (`i64::MIN ≤ n < 2^64`), and every
object satisfies the `BTreeMap` key invariant. -/
def canonJson : Json → Bool
  | .null => true
  | .bool _ => true
  | .num n => decide (-(2 ^ 63 : Int) ≤ n) && decide (n < 2 ^ 64)
  | .str _ => true
  | .arr xs => canonArr xs
  | .obj ms => sortedKeys ms && canonObj ms

/-- Pointwise `canonJson` over array elements. -/
def canonArr : List Json → Bool
  | [] => true
  | x :: xs => canonJson x && canonArr xs

/-- Pointwise `canonJson` over object member values. -/
def canonObj : List (List Char × Json) → Bool
  | [] => true
  | (_, v) :: ms => canonJson v && canonObj ms

end

/-- Two-space indentation at nesting depth `d`, as serde_json's
`PrettyFormatter` emits. -/
def indentAt (d : Nat) : List Char := List.replicate (2 * d) ' '

/-- Character for the decimal digit `k % 10`. -/
def decDigit (k : Nat) : Char := Char.ofNat (48 + k % 10)

/-- Decimal digit run of `n`, most significant first (the output of `itoa`
inside serde's integer formatting). -/
def natDigits (n : Nat) : List Char :=
  if n < 10 then [decDigit n] else natDigits (n / 10) ++ [decDigit (n % 10)]
termination_by n
decreasing_by omega

/-- Decimal rendering of an integer: optional minus sign, then digits. -/
def intDigits (n : Int) : List Char :=
  if n < 0 then '-' :: natDigits n.natAbs else natDigits n.natAbs

/-- Lowercase hexadecimal digit for `k < 16` (serde's escape table uses
lowercase hex). -/
def hexDig (k : Nat) : Char :=
  if k < 10 then Char.ofNat (48 + k) else Char.ofNat (87 + k)

/-- JSON escaping of one character, exactly serde's table: `"` and `\` get a
backslash escape, the five named control characters get their short forms,
every other control character below `0x20` becomes `\u00XX`, and everything
else is emitted verbatim. -/
def escapeChar (c : Char) : List Char :=
  if c = '"' then ['\\', '"']
  else if c = '\\' then ['\\', '\\']
  else if c.toNat = 8 then ['\\', 'b']
  else if c.toNat = 9 then ['\\', 't']
  else if c.toNat = 10 then ['\\', 'n']
  else if c.toNat = 12 then ['\\', 'f']
  else if c.toNat = 13 then ['\\', 'r']
  else if c.toNat < 32 then
    ['\\', 'u', '0', '0', hexDig (c.toNat / 16), hexDig (c.toNat % 16)]
  else [c]

/-- JSON escaping of a whole string body. -/
def escStr : List Char → List Char
  | [] => []
  | c :: t => escapeChar c ++ escStr t

mutual

/-- Model of `serde_json::to_string_pretty` rendering a value that sits at
nesting depth `d`: scalars inline; non-empty arrays and objects put each
element on its own line, indented two more spaces, with `",\n"` between
elements and `": "` after keys. -/
def renderAt : Nat → Json → List Char
  | _, .null => ['n', 'u', 'l', 'l']
  | _, .bool true => ['t', 'r', 'u', 'e']
  | _, .bool false => ['f', 'a', 'l', 's', 'e']
  | _, .num n => intDigits n
  | _, .str s => '"' :: (escStr s ++ ['"'])
  | _, .arr [] => ['[', ']']
  | d, .arr (x :: xs) =>
    '[' :: '\n' :: (indentAt (d + 1) ++
      (renderAt (d + 1) x ++ (arrRest (d + 1) xs ++ ('\n' :: (indentAt d ++ [']'])))))
  | _, .obj [] => ['{', '}']
  | d, .obj (m :: ms) =>
    '{' :: '\n' :: (indentAt (d + 1) ++
      (renderKV (d + 1) m ++ (objRest (d + 1) ms ++ ('\n' :: (indentAt d ++ ['}'])))))

/-- Second and later array elements: comma, newline, indentation, element. -/
def arrRest : Nat → List Json → List Char
  | _, [] => []
  | d, x :: xs => ',' :: '\n' :: (indentAt d ++ (renderAt d x ++ arrRest d xs))

/-- One object member: quoted escaped key, `": "`, value. -/
def renderKV : Nat → (List Char × Json) → List Char
  | d, (k, v) => '"' :: (escStr k ++ ('"' :: ':' :: ' ' :: renderAt d v))

/-- Second and later object members: comma, newline, indentation, member. -/
def objRest : Nat → List (List Char × Json) → List Char
  | _, [] => []
  | d, m :: ms => ',' :: '\n' :: (indentAt d ++ (renderKV d m ++ objRest d ms))

end

/-- Full pretty-printed document of a value (depth 0, no trailing newline,
exactly what `serde_json::to_string_pretty` returns). -/
def renderJson (v : Json) : List Char := renderAt 0 v

/-- Model of the `serde_json::to_string_pretty(&data)` call in
`write_json_file` (`lib.rs:25`).  For a `Value` argument the serializer
cannot fail (its `Serialize` impl produces no errors and every map key is a
string), but the call site matches on a `Result`, so the model keeps the
`Except` shape with the error branch unreachable. -/
def to_string_pretty (v : Json) : Except String (List Char) := .ok (renderJson v)

/-- JSON insignificant whitespace (space, tab, newline, carriage return),
the set serde's parser skips between tokens. -/
def isWsChar (c : Char) : Bool := c = ' ' || c = '\t' || c = '\n' || c = '\r'

/-- Drop insignificant whitespace from the front of the input. -/
def skipWs : List Char → List Char
  | [] => []
  | c :: t => if isWsChar c then skipWs t else c :: t

/-- Decimal digit test. -/
def isDigitChar (c : Char) : Bool := decide (48 ≤ c.toNat) && decide (c.toNat ≤ 57)

/-- Value of a decimal digit run, most significant first. -/
def digitsVal (ds : List Char) : Nat := ds.foldl (fun a c => 10 * a + (c.toNat - 48)) 0

/-- Number parsing after an optional leading minus (already consumed by the
caller): a digit run with no leading zero.  A following `.`, `e` or `E`
would start a float literal in serde; float payloads are outside the model,
so the model parser reports an error there instead of reading a float (the
model renderer never emits them).  serde also turns `-0` into the float
`-0.0`; the model returns the integer `0` on that input, which again no
rendered output ever produces. -/
def parseNumber (neg : Bool) (s : List Char) : Except String (Json × List Char) :=
  let ds := s.takeWhile isDigitChar
  let r := s.dropWhile isDigitChar
  if ds = [] then .error "invalid number"
  else if ds.head? = some '0' ∧ ds.length ≠ 1 then .error "invalid number: leading zero"
  else if r.head? = some '.' ∨ r.head? = some 'e' ∨ r.head? = some 'E' then
    .error "number literals with a fraction or exponent are outside the model"
  else .ok (.num (if neg then -(digitsVal ds : Int) else (digitsVal ds : Int)), r)

/-- Value of one hexadecimal digit, either case. -/
def hexVal (c : Char) : Option Nat :=
  if 48 ≤ c.toNat ∧ c.toNat ≤ 57 then some (c.toNat - 48)
  else if 97 ≤ c.toNat ∧ c.toNat ≤ 102 then some (c.toNat - 87)
  else if 65 ≤ c.toNat ∧ c.toNat ≤ 70 then some (c.toNat - 55)
  else none

/-- Single-character escapes accepted after a backslash. -/
def unescapeChar (e : Char) : Option Char :=
  if e = '"' then some '"'
  else if e = '\\' then some '\\'
  else if e = '/' then some '/'
  else if e = 'b' then some (Char.ofNat 8)
  else if e = 'f' then some (Char.ofNat 12)
  else if e = 'n' then some (Char.ofNat 10)
  else if e = 'r' then some (Char.ofNat 13)
  else if e = 't' then some (Char.ofNat 9)
  else none

mutual

/-- String body parsing after the opening quote: plain characters up to the
closing quote, raw control characters rejected (as serde does), escapes
delegated to `parseEscape`. -/
def parseStringBody : List Char → Except String (List Char × List Char)
  | [] => .error "unexpected end of input while parsing a string"
  | c :: rest =>
    if c = '"' then .ok ([], rest)
    else if c = '\\' then parseEscape rest
    else if c.toNat < 32 then .error "control character inside a string"
    else
      match parseStringBody rest with
      | .ok (s, r) => .ok (c :: s, r)
      | .error e => .error e

/-- Escape sequence after a backslash: `\uXXXX` with four hex digits (the
surrogate range is rejected — the model renderer only emits `\u00XX` for
control characters), or one of the named single-character escapes. -/
def parseEscape : List Char → Except String (List Char × List Char)
  | [] => .error "unexpected end of input in an escape"
  | e :: rest =>
    if e = 'u' then
      match rest with
      | h1 :: h2 :: h3 :: h4 :: rest2 =>
        match hexVal h1, hexVal h2, hexVal h3, hexVal h4 with
        | some a, some b, some c, some d =>
          if 0xD800 ≤ ((a * 16 + b) * 16 + c) * 16 + d ∧
              ((a * 16 + b) * 16 + c) * 16 + d < 0xE000 then
            .error "surrogate escapes are outside the model"
          else
            match parseStringBody rest2 with
            | .ok (s, r) => .ok (Char.ofNat (((a * 16 + b) * 16 + c) * 16 + d) :: s, r)
            | .error e2 => .error e2
        | _, _, _, _ => .error "invalid hex digit in a unicode escape"
      | _ => .error "unexpected end of input in a unicode escape"
    else
      match unescapeChar e with
      | some c =>
        match parseStringBody rest with
        | .ok (s, r) => .ok (c :: s, r)
        | .error e2 => .error e2
      | none => .error "invalid escape"

end

/-- Match an exact run of characters (the tails of `null`, `true`, `false`). -/
def expectChars : List Char → List Char → Except String (List Char)
  | [], s => .ok s
  | _ :: _, [] => .error "unexpected end of input in a literal"
  | c :: cs, d :: s => if c = d then expectChars cs s else .error "invalid literal"

/-- Ordered insertion into the association-list model of
`serde_json::Map` (a `BTreeMap`): keys stay strictly sorted and a repeated
key replaces the earlier value, so the last duplicate in the input wins. -/
def btInsert (k : List Char) (v : Json) : List (List Char × Json) → List (List Char × Json)
  | [] => [(k, v)]
  | (k0, v0) :: t =>
    if keyLt k k0 then (k, v) :: (k0, v0) :: t
    else if k = k0 then (k, v) :: t
    else (k0, v0) :: btInsert k v t

/-- Object construction from parsed members in input order, modelling the
`BTreeMap` insertions serde's `Deserialize` for `Value` performs. -/
def mkObj (ms : List (List Char × Json)) : List (List Char × Json) :=
  ms.foldl (fun acc m => btInsert m.1 m.2 acc) []

mutual

/-- Recursive-descent value parser, the model of serde's
`Deserializer::parse_value` specialised to building a `Value`.  The first
character (whitespace already skipped by the caller) dispatches; `fuel`
makes the nesting recursion structural and is chosen large enough by
`from_str` to never run out on its input. -/
def parseValue : Nat → List Char → Except String (Json × List Char)
  | 0, _ => .error "recursion limit exceeded"
  | fuel + 1, s =>
    match s with
    | [] => .error "unexpected end of input"
    | c :: rest =>
      if c = 'n' then
        match expectChars ['u', 'l', 'l'] rest with
        | .ok r => .ok (.null, r)
        | .error e => .error e
      else if c = 't' then
        match expectChars ['r', 'u', 'e'] rest with
        | .ok r => .ok (.bool true, r)
        | .error e => .error e
      else if c = 'f' then
        match expectChars ['a', 'l', 's', 'e'] rest with
        | .ok r => .ok (.bool false, r)
        | .error e => .error e
      else if c = '"' then
        match parseStringBody rest with
        | .ok (s0, r) => .ok (.str s0, r)
        | .error e => .error e
      else if c = '-' then parseNumber true rest
      else if isDigitChar c then parseNumber false (c :: rest)
      else if c = '[' then
        let s0 := skipWs rest
        if s0.head? = some ']' then .ok (.arr [], s0.tail)
        else
          match parseArrItems fuel s0 with
          | .ok (xs, r) => .ok (.arr xs, r)
          | .error e => .error e
      else if c = '{' then
        let s0 := skipWs rest
        if s0.head? = some '}' then .ok (.obj [], s0.tail)
        else
          match parseObjItems fuel s0 with
          | .ok (ms, r) => .ok (.obj (mkObj ms), r)
          | .error e => .error e
      else .error "expected a value"

/-- One-or-more comma-separated array elements (the empty array is handled
by `parseValue` before calling this), ending at the closing bracket. -/
def parseArrItems : Nat → List Char → Except String (List Json × List Char)
  | 0, _ => .error "recursion limit exceeded"
  | fuel + 1, s =>
    match parseValue fuel s with
    | .error e => .error e
    | .ok (v, r1) =>
      match skipWs r1 with
      | ',' :: r2 =>
        match parseArrItems fuel (skipWs r2) with
        | .ok (xs, r) => .ok (v :: xs, r)
        | .error e => .error e
      | ']' :: r2 => .ok ([v], r2)
      | _ => .error "expected a comma or a closing bracket"

/-- One-or-more `"key": value` members (the empty object is handled by
`parseValue`), ending at the closing brace. -/
def parseObjItems : Nat → List Char → Except String (List (List Char × Json) × List Char)
  | 0, _ => .error "recursion limit exceeded"
  | fuel + 1, s =>
    match s with
    | '"' :: r0 =>
      match parseStringBody r0 with
      | .error e => .error e
      | .ok (k, r1) =>
        match skipWs r1 with
        | ':' :: r2 =>
          match parseValue fuel (skipWs r2) with
          | .error e => .error e
          | .ok (v, r3) =>
            match skipWs r3 with
            | ',' :: r4 =>
              match parseObjItems fuel (skipWs r4) with
              | .ok (ms, r) => .ok ((k, v) :: ms, r)
              | .error e => .error e
            | '}' :: r4 => .ok ([(k, v)], r4)
            | _ => .error "expected a comma or a closing brace"
        | _ => .error "expected a colon"
    | _ => .error "object keys must be strings"

end

/-- Model of the `serde_json::from_str::<JsonValue>(&contents)` call in
`read_json_file` (`lib.rs:58`): parse one value and insist nothing but
whitespace follows.  A fuel of one more than the input length can never be
exhausted, since every recursive step first consumes at least one input
character. -/
def from_str (s : List Char) : Except String Json :=
  match parseValue (s.length + 1) (skipWs s) with
  | .error e => .error e
  | .ok (v, r) => if skipWs r = [] then .ok v else .error "trailing characters"

/-- Process state the two commands consult: the environment-variable map
(read through `std::env::var`) and the result of `std::env::current_dir()`
(`none` models the syscall failing, e.g. a deleted working directory; the
source calls `.unwrap()` on it). -/
structure Env where
  vars : List (String × String)
  cwd : Option String

/-- Model of `std::env::var(name)`: the value of the first binding of
`name`, or absent (the source treats every `Err` — unset or non-unicode —
the same way). -/
def envVar (env : Env) (name : String) : Option String :=
  (env.vars.find? (fun p => p.1 = name)).map (fun p => p.2)

/-- Model of `std::path::Path::join` for Unix-style string paths: an
absolute right operand (leading separator) replaces the base; otherwise the
segment is appended after a separator (none added when the base is empty or
already ends in one).  The two separator tests are phrased on the
character list — the same predicates as `String.startsWith "/"` and
`String.endsWith "/"`.  No normalisation and no validation happens — `..`
segments pass through untouched. -/
def pathJoin (base seg : String) : String :=
  if seg.data.head? = some '/' then seg
  else if base = "" then seg
  else if base.data.getLast? = some '/' then base ++ seg
  else base ++ "/" ++ seg

/-- Directory resolution as inlined in `write_json_file` (`lib.rs:7-17`):
`APPDATA` joined with `ucanduit` when set, else `HOME` joined with
`.ucanduit`, else the current working directory joined with `data`.  The
source unwraps `std::env::current_dir()`, so a failed lookup on that last
branch panics — modelled as `none`. -/
def resolve_app_dir_write (env : Env) : Option String :=
  match envVar env "APPDATA" with
  | some appdata => some (pathJoin appdata "ucanduit")
  | none =>
    match envVar env "HOME" with
    | some home => some (pathJoin home ".ucanduit")
    | none =>
      match env.cwd with
      | some cur => some (pathJoin cur "data")
      | none => none

/-- Directory resolution as inlined in `read_json_file` (`lib.rs:38-48`),
textually the same computation as in `write_json_file`. -/
def resolve_app_dir_read (env : Env) : Option String :=
  match envVar env "APPDATA" with
  | some appdata => some (pathJoin appdata "ucanduit")
  | none =>
    match envVar env "HOME" with
    | some home => some (pathJoin home ".ucanduit")
    | none =>
      match env.cwd with
      | some cur => some (pathJoin cur "data")
      | none => none

/-- Filesystem snapshot: regular files (path to text content) and the set of
existing directories. -/
structure FS where
  files : List (String × List Char)
  dirs : List String

/-- Content of the regular file at `p`, when one exists. -/
def getFile (fs : FS) (p : String) : Option (List Char) :=
  (fs.files.find? (fun q => q.1 = p)).map (fun q => q.2)

/-- Model of `Path::exists`: true for regular files and for directories. -/
def fsExists (fs : FS) (p : String) : Bool :=
  (getFile fs p).isSome || fs.dirs.contains p

/-- Injected OS-level outcomes for the three fallible filesystem calls a
single command performs: `some e` makes the call fail with error text `e`,
`none` lets it succeed. -/
structure SysOracle where
  createDirErr : Option String
  writeErr : Option String
  readErr : Option String

/-- Every proper `/`-prefix of a path together with the path itself: the
directories `std::fs::create_dir_all` ensures exist. -/
def pathPrefixes (p : String) : List String :=
  (List.range (p.splitOn "/").length).map
    (fun i => String.intercalate "/" ((p.splitOn "/").take (i + 1)))

/-- Model of `std::fs::create_dir_all(&app_dir)`: succeeds silently when
the directory already exists; otherwise either fails with the injected OS
error and leaves the filesystem unchanged, or records the directory and all
its ancestors as existing. -/
def create_dir_all (o : SysOracle) (fs : FS) (p : String) : Except String FS :=
  if fs.dirs.contains p then .ok fs
  else
    match o.createDirErr with
    | some e => .error e
    | none => .ok { fs with dirs := p :: (pathPrefixes p ++ fs.dirs) }

/-- Model of `std::fs::write(&file_path, json_string)`: either fails with
the injected OS error and changes nothing, or truncates/creates the file at
exactly that path with exactly that content. -/
def fs_write (o : SysOracle) (fs : FS) (p : String) (content : List Char) : Except String FS :=
  match o.writeErr with
  | some e => .error e
  | none => .ok { fs with files := (p, content) :: fs.files.filter (fun q => q.1 ≠ p) }

/-- Model of `std::fs::read_to_string(&file_path)`: either the injected OS
failure, or the file's content; a path without a regular file (the caller
has only checked `exists`, which is also true for directories) reads as an
OS error. -/
def read_to_string (o : SysOracle) (fs : FS) (p : String) : Except String (List Char) :=
  match o.readErr with
  | some e => .error e
  | none =>
    match getFile fs p with
    | some content => .ok content
    | none => .error "Is a directory (os error 21)"

/-- Translation of `write_json_file` (`lib.rs:5-34`).  The result is
`none` exactly where the source panics (the `.unwrap()` on
`std::env::current_dir()` with neither `APPDATA` nor `HOME` set); otherwise
`some` of the command's `Result` (success or error text) paired with the
filesystem after the call. -/
def write_json_file (filename : String) (data : Json) (env : Env) (fs : FS)
    (o : SysOracle) : Option (Except String Unit × FS) :=
  match resolve_app_dir_write env with
  | none => none
  | some app_dir =>
    match create_dir_all o fs app_dir with
    | .error e => some (.error ("Failed to create app directory: " ++ e), fs)
    | .ok fs1 =>
      let file_path := pathJoin app_dir filename
      match to_string_pretty data with
      | .ok json_string =>
        match fs_write o fs1 file_path json_string with
        | .ok fs2 => some (.ok (), fs2)
        | .error e => some (.error ("Failed to write file: " ++ e), fs1)
      | .error e => some (.error ("Failed to serialize JSON: " ++ e), fs1)

/-- Translation of `read_json_file` (`lib.rs:36-65`).  The command mutates
nothing; the filesystem is returned alongside the `Result` to state that in
the theorems.  `none` again marks the `current_dir().unwrap()` panic. -/
def read_json_file (filename : String) (env : Env) (fs : FS)
    (o : SysOracle) : Option (Except String Json × FS) :=
  match resolve_app_dir_read env with
  | none => none
  | some app_dir =>
    let file_path := pathJoin app_dir filename
    if fsExists fs file_path then
      match read_to_string o fs file_path with
      | .ok contents =>
        match from_str contents with
        | .ok json_data => some (.ok json_data, fs)
        | .error e => some (.error ("Failed to parse JSON: " ++ e), fs)
      | .error e => some (.error ("Failed to read file: " ++ e), fs)
    else some (.error ("File does not exist: " ++ filename), fs)

/-! Support lemmas for the codec round trip: decimal digits. -/

theorem decDigit_toNat (k : Nat) (h : k < 10) : (decDigit k).toNat = 48 + k := by
  interval_cases k <;> decide

theorem isDigitChar_decDigit (k : Nat) (h : k < 10) : isDigitChar (decDigit k) = true := by
  interval_cases k <;> decide

theorem natDigits_ne_nil (n : Nat) : natDigits n ≠ [] := by
  rw [natDigits]
  by_cases h : n < 10 <;> simp [h]

theorem natDigits_all_digits (n : Nat) : ∀ c ∈ natDigits n, isDigitChar c = true := by
  induction n using Nat.strongRecOn with
  | _ n ih =>
    rw [natDigits]
    by_cases h : n < 10
    · simp only [if_pos h]
      intro c hc
      rw [List.mem_singleton] at hc
      subst hc
      exact isDigitChar_decDigit n h
    · simp only [if_neg h]
      intro c hc
      rcases List.mem_append.mp hc with h1 | h1
      · exact ih (n / 10) (by omega) c h1
      · rw [List.mem_singleton] at h1
        subst h1
        exact isDigitChar_decDigit (n % 10) (by omega)

theorem digitsVal_natDigits (n : Nat) : digitsVal (natDigits n) = n := by
  induction n using Nat.strongRecOn with
  | _ n ih =>
    by_cases h : n < 10
    · rw [natDigits, if_pos h]
      simp [digitsVal, decDigit_toNat n h]
    · rw [natDigits, if_neg h]
      simp only [digitsVal, List.foldl_append, List.foldl_cons, List.foldl_nil]
      have hv := ih (n / 10) (by omega)
      rw [digitsVal] at hv
      rw [hv, decDigit_toNat (n % 10) (by omega)]
      omega

theorem natDigits_head_ne_zero (n : Nat) (h : 1 ≤ n) : (natDigits n).head? ≠ some '0' := by
  induction n using Nat.strongRecOn with
  | _ n ih =>
    by_cases h10 : n < 10
    · rw [natDigits, if_pos h10]
      simp only [List.head?_cons]
      intro hc
      have htn := congrArg Char.toNat (Option.some.inj hc)
      rw [decDigit_toNat n h10] at htn
      have h0 : ('0' : Char).toNat = 48 := by decide
      rw [h0] at htn
      omega
    · rw [natDigits, if_neg h10]
      rw [List.head?_append_of_ne_nil _ (natDigits_ne_nil (n / 10))]
      exact ih (n / 10) (by omega) (by omega)

theorem natDigits_shape (n : Nat) : ∃ c t, natDigits n = c :: t ∧ isDigitChar c = true := by
  match hd : natDigits n with
  | [] => exact absurd hd (natDigits_ne_nil n)
  | c :: t =>
    refine ⟨c, t, rfl, natDigits_all_digits n c ?_⟩
    rw [hd]
    exact List.mem_cons_self c t

/-! Support lemmas: number parsing inverts number rendering. -/

/-- Input that cannot extend a rendered integer literal: empty, or headed by
a character that is neither a digit nor starts a fraction or exponent. -/
def numStop : List Char → Bool
  | [] => true
  | c :: _ => !(isDigitChar c || c == '.' || c == 'e' || c == 'E')

/-- Input as it looks right after a rendered element inside pretty-printed
output: empty (document end), or a comma, or the newline before the closing
bracket of the enclosing array or object. -/
def stopOk : List Char → Bool
  | [] => true
  | c :: _ => c == ',' || c == '\n'

theorem stopOk_numStop {rest : List Char} (h : stopOk rest = true) : numStop rest = true := by
  cases rest with
  | nil => rfl
  | cons c t =>
    simp only [stopOk, Bool.or_eq_true, beq_iff_eq] at h
    rcases h with h | h <;> subst h <;> rfl

theorem takeWhile_digit_run (ds rest : List Char) (hds : ∀ c ∈ ds, isDigitChar c = true)
    (hrest : numStop rest = true) :
    (ds ++ rest).takeWhile isDigitChar = ds ∧ (ds ++ rest).dropWhile isDigitChar = rest := by
  induction ds with
  | nil =>
    cases rest with
    | nil => exact ⟨rfl, rfl⟩
    | cons c t =>
      simp only [numStop, Bool.not_eq_eq_eq_not, Bool.not_true, Bool.or_eq_false_iff] at hrest
      simp [List.takeWhile_cons, List.dropWhile_cons, hrest.1.1.1]
  | cons c t ih =>
    have hc : isDigitChar c = true := hds c (List.mem_cons_self c t)
    have ht := ih (fun x hx => hds x (List.mem_cons_of_mem c hx))
    simp [List.takeWhile_cons, List.dropWhile_cons, hc, ht.1, ht.2]

theorem parseNumber_natDigits (m : Nat) (neg : Bool) (rest : List Char)
    (h : numStop rest = true) :
    parseNumber neg (natDigits m ++ rest)
      = .ok (.num (if neg then -(m : Int) else (m : Int)), rest) := by
  obtain ⟨htake, hdrop⟩ := takeWhile_digit_run (natDigits m) rest (natDigits_all_digits m) h
  have hlead : ¬((natDigits m).head? = some '0' ∧ (natDigits m).length ≠ 1) := by
    rcases Nat.eq_zero_or_pos m with hm | hm
    · subst hm
      intro hcon
      have : natDigits 0 = ['0'] := by rw [natDigits]; decide
      rw [this] at hcon
      exact hcon.2 rfl
    · intro hcon
      exact natDigits_head_ne_zero m hm hcon.1
  have hstop : ¬(rest.head? = some '.' ∨ rest.head? = some 'e' ∨ rest.head? = some 'E') := by
    cases rest with
    | nil => simp
    | cons c t =>
      simp only [numStop, Bool.not_eq_eq_eq_not, Bool.not_true, Bool.or_eq_false_iff,
        beq_eq_false_iff_ne] at h
      simp only [List.head?_cons, Option.some.injEq]
      push_neg
      exact ⟨h.1.1.2, h.1.2, h.2⟩
  rw [parseNumber]
  simp only [htake, hdrop]
  rw [if_neg (natDigits_ne_nil m), if_neg hlead, if_neg hstop, digitsVal_natDigits]

/-! Support lemmas: whitespace skipping. -/

theorem skipWs_cons_false {c : Char} (h : isWsChar c = false) (t : List Char) :
    skipWs (c :: t) = c :: t := by
  simp [skipWs, h]

theorem skipWs_replicate_space (n : Nat) (s : List Char) :
    skipWs (List.replicate n ' ' ++ s) = skipWs s := by
  induction n with
  | zero => rfl
  | succ k ih => simpa [List.replicate_succ, skipWs, isWsChar] using ih

theorem skipWs_indentAt (d : Nat) (s : List Char) :
    skipWs (indentAt d ++ s) = skipWs s :=
  skipWs_replicate_space (2 * d) s

theorem skipWs_newline (s : List Char) : skipWs ('\n' :: s) = skipWs s := by
  simp [skipWs, isWsChar]

/-! Support lemmas: characters a rendered value can start with. -/

theorem digit_facts {c : Char} (h : isDigitChar c = true) :
    c ≠ 'n' ∧ c ≠ 't' ∧ c ≠ 'f' ∧ c ≠ '"' ∧ c ≠ '-' ∧
      isWsChar c = false ∧ c ≠ ']' ∧ c ≠ '}' := by
  have hne : ∀ d : Char, isDigitChar d = false → c ≠ d := by
    intro d hd he
    subst he
    rw [h] at hd
    cases hd
  have hws : isWsChar c = false := by
    have h1 := hne ' ' (by decide)
    have h2 := hne '\t' (by decide)
    have h3 := hne '\n' (by decide)
    have h4 := hne '\r' (by decide)
    simp [isWsChar, h1, h2, h3, h4]
  exact ⟨hne 'n' (by decide), hne 't' (by decide), hne 'f' (by decide),
    hne '"' (by decide), hne '-' (by decide), hws,
    hne ']' (by decide), hne '}' (by decide)⟩

/-- Packaging step for `renderAt_shape`: a cons cell whose head satisfies
the three side conditions is itself the wanted decomposition. -/
theorem headCase {c : Char} (t : List Char)
    (h : (isWsChar c = false ∧ c ≠ ']') ∧ c ≠ '}') :
    ∃ c0 t0, c :: t = c0 :: t0 ∧ isWsChar c0 = false ∧ c0 ≠ ']' ∧ c0 ≠ '}' :=
  ⟨c, t, rfl, h.1.1, h.1.2, h.2⟩

theorem renderAt_shape (d : Nat) (v : Json) :
    ∃ c t, renderAt d v = c :: t ∧ isWsChar c = false ∧ c ≠ ']' ∧ c ≠ '}' := by
  cases v with
  | num n =>
    by_cases hn : n < 0
    · rw [renderAt, intDigits, if_pos hn]
      exact headCase _ (by decide)
    · obtain ⟨c, t, hct, hc⟩ := natDigits_shape n.natAbs
      rw [renderAt, intDigits, if_neg hn, hct]
      obtain ⟨_, _, _, _, _, hws, hbr, hbc⟩ := digit_facts hc
      exact headCase _ ⟨⟨hws, hbr⟩, hbc⟩
  | bool b => cases b <;> exact headCase _ (by decide)
  | arr xs => cases xs <;> exact headCase _ (by decide)
  | obj ms => cases ms <;> exact headCase _ (by decide)
  | _ => exact headCase _ (by decide)

theorem skipWs_renderAt (d : Nat) (v : Json) (s : List Char) :
    skipWs (renderAt d v ++ s) = renderAt d v ++ s := by
  obtain ⟨c, t, hct, hws, _, _⟩ := renderAt_shape d v
  rw [hct, List.cons_append, skipWs_cons_false hws]

/-! Support lemmas: string parsing inverts string escaping. -/

theorem hexVal_hexDig (k : Nat) (h : k < 16) : hexVal (hexDig k) = some k := by
  interval_cases k <;> decide

theorem parseStringBody_escapeChar (c : Char) (s : List Char) :
    parseStringBody (escapeChar c ++ s)
      = match parseStringBody s with
        | .ok (t, r) => .ok (c :: t, r)
        | .error e => .error e := by
  rw [escapeChar]
  by_cases h1 : c = '"'
  · subst h1
    rfl
  rw [if_neg h1]
  by_cases h2 : c = '\\'
  · subst h2
    rfl
  rw [if_neg h2]
  by_cases h3 : c.toNat = 8
  · rw [if_pos h3]
    have hc : c = Char.ofNat 8 := by rw [← h3, Char.ofNat_toNat]
    rw [hc]
    rfl
  rw [if_neg h3]
  by_cases h4 : c.toNat = 9
  · rw [if_pos h4]
    have hc : c = Char.ofNat 9 := by rw [← h4, Char.ofNat_toNat]
    rw [hc]
    rfl
  rw [if_neg h4]
  by_cases h5 : c.toNat = 10
  · rw [if_pos h5]
    have hc : c = Char.ofNat 10 := by rw [← h5, Char.ofNat_toNat]
    rw [hc]
    rfl
  rw [if_neg h5]
  by_cases h6 : c.toNat = 12
  · rw [if_pos h6]
    have hc : c = Char.ofNat 12 := by rw [← h6, Char.ofNat_toNat]
    rw [hc]
    rfl
  rw [if_neg h6]
  by_cases h7 : c.toNat = 13
  · rw [if_pos h7]
    have hc : c = Char.ofNat 13 := by rw [← h7, Char.ofNat_toNat]
    rw [hc]
    rfl
  rw [if_neg h7]
  by_cases h8 : c.toNat < 32
  · rw [if_pos h8]
    show parseStringBody ('\\' :: 'u' :: '0' :: '0' :: hexDig (c.toNat / 16) :: hexDig (c.toNat % 16) :: s) = _
    have hbody : parseStringBody ('\\' :: 'u' :: '0' :: '0' :: hexDig (c.toNat / 16) :: hexDig (c.toNat % 16) :: s)
        = parseEscape ('u' :: '0' :: '0' :: hexDig (c.toNat / 16) :: hexDig (c.toNat % 16) :: s) := rfl
    rw [hbody, parseEscape]
    rw [if_pos rfl]
    have hh : hexVal '0' = some 0 := by decide
    rw [hh, hexVal_hexDig (c.toNat / 16) (by omega), hexVal_hexDig (c.toNat % 16) (by omega)]
    simp only
    have hcode : ((0 * 16 + 0) * 16 + c.toNat / 16) * 16 + c.toNat % 16 = c.toNat := by omega
    rw [hcode]
    rw [if_neg (by omega)]
    rw [Char.ofNat_toNat]
  · rw [if_neg h8]
    show parseStringBody (c :: s) = _
    rw [parseStringBody, if_neg h1, if_neg h2, if_neg (by omega : ¬c.toNat < 32)]

theorem parseStringBody_escStr (s : List Char) :
    ∀ rest, parseStringBody (escStr s ++ '"' :: rest) = .ok (s, rest) := by
  induction s with
  | nil =>
    intro rest
    rfl
  | cons c t ih =>
    intro rest
    rw [escStr, List.append_assoc, parseStringBody_escapeChar, ih]

/-! Support lemmas: ordered insertion rebuilds an already-sorted member list. -/

theorem keyLt_irrefl (k : List Char) : keyLt k k = false := by
  induction k with
  | nil => rfl
  | cons a as ih =>
    rw [keyLt, if_neg (Nat.lt_irrefl a.toNat), if_pos rfl]
    exact ih

theorem keyLt_ne {a b : List Char} (h : keyLt a b = true) : a ≠ b := by
  intro he
  subst he
  rw [keyLt_irrefl a] at h
  cases h

theorem keyLt_asymm {a b : List Char} (h : keyLt a b = true) : keyLt b a = false := by
  induction a generalizing b with
  | nil =>
    cases b with
    | nil => exact absurd h (by simp [keyLt])
    | cons c bs => rfl
  | cons c as ih =>
    cases b with
    | nil => exact absurd h (by simp [keyLt])
    | cons d bs =>
      rw [keyLt] at h
      rw [keyLt]
      by_cases h1 : c.toNat < d.toNat
      · rw [if_neg (by omega), if_neg (by omega)]
      · rw [if_neg h1] at h
        by_cases h2 : c.toNat = d.toNat
        · rw [if_pos h2] at h
          rw [if_neg (by omega), if_pos (by omega)]
          exact ih h
        · rw [if_neg h2] at h
          cases h

theorem keyLt_trans {a b c : List Char} (h1 : keyLt a b = true) (h2 : keyLt b c = true) :
    keyLt a c = true := by
  induction a generalizing b c with
  | nil =>
    cases c with
    | nil =>
      cases b with
      | nil => exact h2
      | cons d bs => exact absurd h2 (by simp [keyLt])
    | cons e cs => rfl
  | cons d as ih =>
    cases b with
    | nil => exact absurd h1 (by simp [keyLt])
    | cons e bs =>
      cases c with
      | nil => exact absurd h2 (by simp [keyLt])
      | cons f cs =>
        rw [keyLt] at h1 h2
        rw [keyLt]
        by_cases g1 : d.toNat < e.toNat
        · by_cases g2 : e.toNat < f.toNat
          · rw [if_pos (by omega)]
          · rw [if_neg g2] at h2
            by_cases g3 : e.toNat = f.toNat
            · rw [if_pos (by omega)]
            · rw [if_neg g3] at h2
              cases h2
        · rw [if_neg g1] at h1
          by_cases g2 : d.toNat = e.toNat
          · rw [if_pos g2] at h1
            by_cases g3 : e.toNat < f.toNat
            · rw [if_pos (by omega)]
            · rw [if_neg g3] at h2
              by_cases g4 : e.toNat = f.toNat
              · rw [if_pos g4] at h2
                rw [if_neg (by omega), if_pos (by omega)]
                exact ih h1 h2
              · rw [if_neg g4] at h2
                cases h2
          · rw [if_neg g2] at h1
            cases h1

theorem btInsert_append (k : List Char) (v : Json) (m : List (List Char × Json))
    (h : ∀ p ∈ m, keyLt p.1 k = true) : btInsert k v m = m ++ [(k, v)] := by
  induction m with
  | nil => rfl
  | cons q t ih =>
    obtain ⟨k0, v0⟩ := q
    have hk0 : keyLt k0 k = true := h (k0, v0) (List.mem_cons_self _ _)
    rw [btInsert, if_neg (by rw [keyLt_asymm hk0]; exact Bool.false_ne_true),
      if_neg (fun he => keyLt_ne hk0 he.symm),
      ih (fun p hp => h p (List.mem_cons_of_mem _ hp)), List.cons_append]

theorem sortedKeys_head_lt {k : List Char} {v : Json} {t : List (List Char × Json)}
    (h : sortedKeys ((k, v) :: t) = true) : ∀ p ∈ t, keyLt k p.1 = true := by
  induction t generalizing k v with
  | nil => intro p hp; cases hp
  | cons q t2 ih =>
    obtain ⟨k2, v2⟩ := q
    rw [sortedKeys, Bool.and_eq_true] at h
    intro p hp
    rcases List.mem_cons.mp hp with he | hmem
    · subst he
      exact h.1
    · exact keyLt_trans h.1 (ih h.2 p hmem)

theorem sortedKeys_tail {q : List Char × Json} {t : List (List Char × Json)}
    (h : sortedKeys (q :: t) = true) : sortedKeys t = true := by
  cases t with
  | nil => rfl
  | cons q2 t2 =>
    obtain ⟨k, v⟩ := q
    obtain ⟨k2, v2⟩ := q2
    rw [sortedKeys, Bool.and_eq_true] at h
    exact h.2

theorem sortedKeys_before {acc t : List (List Char × Json)} {k : List Char} {v : Json}
    (h : sortedKeys (acc ++ (k, v) :: t) = true) : ∀ p ∈ acc, keyLt p.1 k = true := by
  induction acc with
  | nil => intro p hp; cases hp
  | cons q acc2 ih =>
    obtain ⟨k0, v0⟩ := q
    intro p hp
    rcases List.mem_cons.mp hp with he | hmem
    · subst he
      exact sortedKeys_head_lt h (k, v) (by simp)
    · exact ih (sortedKeys_tail h) p hmem

theorem foldl_btInsert (ms : List (List Char × Json)) :
    ∀ acc, sortedKeys (acc ++ ms) = true →
      ms.foldl (fun a m => btInsert m.1 m.2 a) acc = acc ++ ms := by
  induction ms with
  | nil => intro acc _; simp
  | cons q t ih =>
    intro acc hs
    obtain ⟨k, v⟩ := q
    rw [List.foldl_cons]
    have hins : btInsert k v acc = acc ++ [(k, v)] :=
      btInsert_append k v acc (sortedKeys_before hs)
    rw [hins]
    have hs2 : sortedKeys ((acc ++ [(k, v)]) ++ t) = true := by
      rw [List.append_assoc, List.singleton_append]
      exact hs
    rw [ih (acc ++ [(k, v)]) hs2, List.append_assoc, List.singleton_append]

theorem mkObj_sorted {ms : List (List Char × Json)} (h : sortedKeys ms = true) :
    mkObj ms = ms :=
  foldl_btInsert ms [] (by rw [List.nil_append]; exact h)

/-! Dispatch lemmas: how `parseValue` reacts to each possible first
character.  All but the digit case are definitional. -/

theorem parseValue_null (f : Nat) (rest : List Char) :
    parseValue (f + 1) ('n' :: 'u' :: 'l' :: 'l' :: rest) = .ok (.null, rest) := rfl

theorem parseValue_true (f : Nat) (rest : List Char) :
    parseValue (f + 1) ('t' :: 'r' :: 'u' :: 'e' :: rest) = .ok (.bool true, rest) := rfl

theorem parseValue_false (f : Nat) (rest : List Char) :
    parseValue (f + 1) ('f' :: 'a' :: 'l' :: 's' :: 'e' :: rest) = .ok (.bool false, rest) := rfl

theorem parseValue_quote (f : Nat) (rest : List Char) :
    parseValue (f + 1) ('"' :: rest)
      = match parseStringBody rest with
        | .ok (s0, r) => .ok (.str s0, r)
        | .error e => .error e := rfl

theorem parseValue_minus (f : Nat) (rest : List Char) :
    parseValue (f + 1) ('-' :: rest) = parseNumber true rest := rfl

theorem parseValue_digit {c : Char} (h1 : ¬c = 'n') (h2 : ¬c = 't') (h3 : ¬c = 'f')
    (h4 : ¬c = '"') (h5 : ¬c = '-') (h6 : isDigitChar c = true) (f : Nat) (rest : List Char) :
    parseValue (f + 1) (c :: rest) = parseNumber false (c :: rest) := by
  simp only [parseValue]
  rw [if_neg h1, if_neg h2, if_neg h3, if_neg h4, if_neg h5, if_pos h6]

theorem parseValue_openBracket (f : Nat) (rest : List Char) :
    parseValue (f + 1) ('[' :: rest)
      = (if (skipWs rest).head? = some ']' then .ok (.arr [], (skipWs rest).tail)
         else match parseArrItems f (skipWs rest) with
           | .ok (xs, r) => .ok (.arr xs, r)
           | .error e => .error e) := rfl

theorem parseValue_openBrace (f : Nat) (rest : List Char) :
    parseValue (f + 1) ('{' :: rest)
      = (if (skipWs rest).head? = some '}' then .ok (.obj [], (skipWs rest).tail)
         else match parseObjItems f (skipWs rest) with
           | .ok (ms, r) => .ok (.obj (mkObj ms), r)
           | .error e => .error e) := rfl

theorem skipWs_space (s : List Char) : skipWs (' ' :: s) = skipWs s := by
  simp [skipWs, isWsChar]

/-- Complete scalar case for numbers: a rendered integer parses back to
itself whenever the following input cannot extend the literal. -/
theorem rt_num (n : Int) (f : Nat) (rest : List Char) (h : stopOk rest = true) :
    parseValue (f + 1) (intDigits n ++ rest) = .ok (.num n, rest) := by
  have hns := stopOk_numStop h
  by_cases hn : n < 0
  · rw [intDigits, if_pos hn, List.cons_append, parseValue_minus,
      parseNumber_natDigits n.natAbs true rest hns]
    have hv : -((n.natAbs : Nat) : Int) = n := by omega
    rw [if_pos rfl, hv]
  · rw [intDigits, if_neg hn]
    obtain ⟨c, t, hct, hc⟩ := natDigits_shape n.natAbs
    obtain ⟨e1, e2, e3, e4, e5, _, _, _⟩ := digit_facts hc
    rw [hct, List.cons_append, parseValue_digit e1 e2 e3 e4 e5 hc, ← List.cons_append, ← hct,
      parseNumber_natDigits n.natAbs false rest hns]
    have hv : ((n.natAbs : Nat) : Int) = n := by omega
    rw [if_neg (by simp), hv]

/-- Complete scalar case for strings. -/
theorem rt_str (s : List Char) (f : Nat) (rest : List Char) :
    parseValue (f + 1) (('"' :: (escStr s ++ ['"'])) ++ rest) = .ok (.str s, rest) := by
  have harg : ('"' :: (escStr s ++ ['"'])) ++ rest = '"' :: (escStr s ++ ('"' :: rest)) := by
    simp [List.append_assoc]
  rw [harg, parseValue_quote, parseStringBody_escStr]

theorem skipWs_renderKV (d : Nat) (m : List Char × Json) (s : List Char) :
    skipWs (renderKV d m ++ s) = renderKV d m ++ s := by
  obtain ⟨k, v⟩ := m
  show skipWs ('"' :: ((escStr k ++ ('"' :: ':' :: ' ' :: renderAt d v)) ++ s)) = _
  rw [skipWs_cons_false (by decide)]
  rfl

theorem renderKV_head (d : Nat) (m : List Char × Json) (s : List Char) :
    (renderKV d m ++ s).head? = some '"' := by
  obtain ⟨k, v⟩ := m
  rfl

/-! Round trip of the whole codec: parsing pretty-printed output returns
the value that was printed.  Mutual induction over the value, its array
elements, and its object members. -/

mutual

theorem rt_val : ∀ (v : Json) (d fuel : Nat) (rest : List Char),
    canonJson v = true → (renderAt d v).length < fuel → stopOk rest = true →
    parseValue fuel (renderAt d v ++ rest) = .ok (v, rest)
  | .null, _, fuel, rest, _, hf, _ => by
    cases fuel with
    | zero => exact absurd hf (Nat.not_lt_zero _)
    | succ f => exact parseValue_null f rest
  | .bool true, _, fuel, rest, _, hf, _ => by
    cases fuel with
    | zero => exact absurd hf (Nat.not_lt_zero _)
    | succ f => exact parseValue_true f rest
  | .bool false, _, fuel, rest, _, hf, _ => by
    cases fuel with
    | zero => exact absurd hf (Nat.not_lt_zero _)
    | succ f => exact parseValue_false f rest
  | .num n, _, fuel, rest, _, hf, hr => by
    cases fuel with
    | zero => exact absurd hf (Nat.not_lt_zero _)
    | succ f => exact rt_num n f rest hr
  | .str s, _, fuel, rest, _, hf, _ => by
    cases fuel with
    | zero => exact absurd hf (Nat.not_lt_zero _)
    | succ f => exact rt_str s f rest
  | .arr [], _, fuel, rest, _, hf, _ => by
    cases fuel with
    | zero => exact absurd hf (Nat.not_lt_zero _)
    | succ f =>
      have harg : renderAt 0 (.arr []) ++ rest = '[' :: ']' :: rest := rfl
      show parseValue (f + 1) ('[' :: ']' :: rest) = .ok (.arr [], rest)
      rw [parseValue_openBracket, skipWs_cons_false (by decide)]
      simp
  | .arr (x :: xs), d, fuel, rest, hc, hf, _ => by
    cases fuel with
    | zero => exact absurd hf (Nat.not_lt_zero _)
    | succ f =>
      have hcs : canonJson x = true ∧ canonArr xs = true := by
        have : canonJson (.arr (x :: xs)) = (canonJson x && canonArr xs) := rfl
        rw [this, Bool.and_eq_true] at hc
        exact hc
      have harg : renderAt d (.arr (x :: xs)) ++ rest
          = '[' :: ('\n' :: (indentAt (d + 1) ++ (renderAt (d + 1) x ++
              (arrRest (d + 1) xs ++ ('\n' :: (indentAt d ++ (']' :: rest))))))) := by
        show ('[' :: '\n' :: (indentAt (d + 1) ++ (renderAt (d + 1) x ++
          (arrRest (d + 1) xs ++ ('\n' :: (indentAt d ++ [']'])))))) ++ rest = _
        simp [List.append_assoc]
      rw [harg, parseValue_openBracket]
      have hskip : skipWs ('\n' :: (indentAt (d + 1) ++ (renderAt (d + 1) x ++
          (arrRest (d + 1) xs ++ ('\n' :: (indentAt d ++ (']' :: rest)))))))
          = renderAt (d + 1) x ++ (arrRest (d + 1) xs ++ ('\n' :: (indentAt d ++ (']' :: rest)))) := by
        rw [skipWs_newline, skipWs_indentAt, skipWs_renderAt]
      rw [hskip]
      obtain ⟨c0, t0, hct, _, hbr0, _⟩ := renderAt_shape (d + 1) x
      rw [if_neg (by rw [hct, List.cons_append]; simp [hbr0])]
      have hlen : (renderAt (d + 1) x).length + (arrRest (d + 1) xs).length + 1 < f := by
        have hf2 : (('[' :: '\n' :: (indentAt (d + 1) ++ (renderAt (d + 1) x ++
            (arrRest (d + 1) xs ++ ('\n' :: (indentAt d ++ [']'])))))) : List Char).length
            < f + 1 := hf
        simp [indentAt] at hf2
        omega
      rw [rt_arrItems x xs (d + 1) d f rest hcs.1 hcs.2 hlen]
  | .obj [], _, fuel, rest, _, hf, _ => by
    cases fuel with
    | zero => exact absurd hf (Nat.not_lt_zero _)
    | succ f =>
      show parseValue (f + 1) ('{' :: '}' :: rest) = .ok (.obj [], rest)
      rw [parseValue_openBrace, skipWs_cons_false (by decide)]
      simp
  | .obj ((k, v) :: ms), d, fuel, rest, hc, hf, _ => by
    cases fuel with
    | zero => exact absurd hf (Nat.not_lt_zero _)
    | succ f =>
      have hcs : sortedKeys ((k, v) :: ms) = true ∧ canonJson v = true ∧ canonObj ms = true := by
        have h1 : canonJson (.obj ((k, v) :: ms))
            = (sortedKeys ((k, v) :: ms) && (canonJson v && canonObj ms)) := rfl
        rw [h1, Bool.and_eq_true, Bool.and_eq_true] at hc
        exact ⟨hc.1, hc.2.1, hc.2.2⟩
      have harg : renderAt d (.obj ((k, v) :: ms)) ++ rest
          = '{' :: ('\n' :: (indentAt (d + 1) ++ (renderKV (d + 1) (k, v) ++
              (objRest (d + 1) ms ++ ('\n' :: (indentAt d ++ ('}' :: rest))))))) := by
        show ('{' :: '\n' :: (indentAt (d + 1) ++ (renderKV (d + 1) (k, v) ++
          (objRest (d + 1) ms ++ ('\n' :: (indentAt d ++ ['}'])))))) ++ rest = _
        simp [List.append_assoc]
      rw [harg, parseValue_openBrace]
      have hskip : skipWs ('\n' :: (indentAt (d + 1) ++ (renderKV (d + 1) (k, v) ++
          (objRest (d + 1) ms ++ ('\n' :: (indentAt d ++ ('}' :: rest)))))))
          = renderKV (d + 1) (k, v) ++ (objRest (d + 1) ms ++ ('\n' :: (indentAt d ++ ('}' :: rest)))) := by
        rw [skipWs_newline, skipWs_indentAt, skipWs_renderKV]
      rw [hskip]
      rw [if_neg (by rw [renderKV_head]; simp)]
      have hlen : (renderKV (d + 1) (k, v)).length + (objRest (d + 1) ms).length + 1 < f := by
        have hf2 : (('{' :: '\n' :: (indentAt (d + 1) ++ (renderKV (d + 1) (k, v) ++
            (objRest (d + 1) ms ++ ('\n' :: (indentAt d ++ ['}'])))))) : List Char).length
            < f + 1 := hf
        simp [indentAt] at hf2
        omega
      rw [rt_objItems (k, v) ms (d + 1) d f rest hcs.2.1 hcs.2.2 hlen]
      show Except.ok (Json.obj (mkObj ((k, v) :: ms)), rest) = _
      rw [mkObj_sorted hcs.1]
termination_by v _ _ _ _ _ _ => sizeOf v

theorem rt_arrItems : ∀ (x : Json) (xs : List Json) (d dO fuel : Nat) (rest : List Char),
    canonJson x = true → canonArr xs = true →
    (renderAt d x).length + (arrRest d xs).length + 1 < fuel →
    parseArrItems fuel (renderAt d x ++ (arrRest d xs ++ ('\n' :: (indentAt dO ++ (']' :: rest)))))
      = .ok (x :: xs, rest)
  | x, [], d, dO, fuel, rest, hcx, _, hf => by
    cases fuel with
    | zero => exact absurd hf (Nat.not_lt_zero _)
    | succ f =>
      have hlx : (renderAt d x).length < f := by
        have : (arrRest d ([] : List Json)).length = 0 := rfl
        omega
      have hv := rt_val x d f ('\n' :: (indentAt dO ++ (']' :: rest))) hcx hlx rfl
      have hskip : skipWs ('\n' :: (indentAt dO ++ (']' :: rest))) = ']' :: rest := by
        rw [skipWs_newline, skipWs_indentAt, skipWs_cons_false (by decide)]
      show parseArrItems (f + 1) (renderAt d x ++ ([] ++ ('\n' :: (indentAt dO ++ (']' :: rest))))) = _
      rw [List.nil_append]
      simp only [parseArrItems, hv, hskip]
  | x, y :: ys, d, dO, fuel, rest, hcx, hcxs, hf => by
    cases fuel with
    | zero => exact absurd hf (Nat.not_lt_zero _)
    | succ f =>
      have hcs : canonJson y = true ∧ canonArr ys = true := by
        have : canonArr (y :: ys) = (canonJson y && canonArr ys) := rfl
        rw [this, Bool.and_eq_true] at hcxs
        exact hcxs
      have hf2 : (renderAt d x).length +
          ((',' :: '\n' :: (indentAt d ++ (renderAt d y ++ arrRest d ys))) : List Char).length
          + 1 < f + 1 := hf
      simp only [List.length_cons, List.length_append, indentAt, List.length_replicate] at hf2
      have harg : arrRest d (y :: ys) ++ ('\n' :: (indentAt dO ++ (']' :: rest)))
          = ',' :: ('\n' :: (indentAt d ++ (renderAt d y ++
              (arrRest d ys ++ ('\n' :: (indentAt dO ++ (']' :: rest))))))) := by
        show ((',' :: '\n' :: (indentAt d ++ (renderAt d y ++ arrRest d ys))) : List Char) ++ _ = _
        simp [List.append_assoc]
      have hlx : (renderAt d x).length < f := by omega
      have hv := rt_val x d f
        (',' :: ('\n' :: (indentAt d ++ (renderAt d y ++
          (arrRest d ys ++ ('\n' :: (indentAt dO ++ (']' :: rest)))))))) hcx hlx rfl
      have hskip2 : skipWs ('\n' :: (indentAt d ++ (renderAt d y ++
          (arrRest d ys ++ ('\n' :: (indentAt dO ++ (']' :: rest)))))))
          = renderAt d y ++ (arrRest d ys ++ ('\n' :: (indentAt dO ++ (']' :: rest)))) := by
        rw [skipWs_newline, skipWs_indentAt, skipWs_renderAt]
      have hrec := rt_arrItems y ys d dO f rest hcs.1 hcs.2 (by omega)
      rw [harg] at *
      simp only [parseArrItems, hv, skipWs_cons_false (show isWsChar ',' = false by decide),
        hskip2, hrec]
termination_by x xs _ _ _ _ _ _ _ => sizeOf x + sizeOf xs

theorem rt_objItems : ∀ (m : List Char × Json) (ms : List (List Char × Json))
    (d dO fuel : Nat) (rest : List Char),
    canonJson m.2 = true → canonObj ms = true →
    (renderKV d m).length + (objRest d ms).length + 1 < fuel →
    parseObjItems fuel (renderKV d m ++ (objRest d ms ++ ('\n' :: (indentAt dO ++ ('}' :: rest)))))
      = .ok (m :: ms, rest)
  | (k, v), [], d, dO, fuel, rest, hcv, _, hf => by
    cases fuel with
    | zero => exact absurd hf (Nat.not_lt_zero _)
    | succ f =>
      have hf2 : (('"' :: (escStr k ++ ('"' :: ':' :: ' ' :: renderAt d v))) : List Char).length
          + (objRest d ([] : List (List Char × Json))).length + 1 < f + 1 := hf
      simp only [objRest, List.length_nil, List.length_cons, List.length_append] at hf2
      have hlv : (renderAt d v).length < f := by omega
      have harg : renderKV d (k, v) ++ (objRest d [] ++ ('\n' :: (indentAt dO ++ ('}' :: rest))))
          = '"' :: (escStr k ++ ('"' :: (':' :: (' ' ::
              (renderAt d v ++ ('\n' :: (indentAt dO ++ ('}' :: rest)))))))) := by
        show (('"' :: (escStr k ++ ('"' :: ':' :: ' ' :: renderAt d v))) : List Char) ++ ([] ++ _) = _
        simp [List.append_assoc]
      have hv := rt_val v d f ('\n' :: (indentAt dO ++ ('}' :: rest))) hcv hlv rfl
      have hskipv : skipWs (' ' :: (renderAt d v ++ ('\n' :: (indentAt dO ++ ('}' :: rest)))))
          = renderAt d v ++ ('\n' :: (indentAt dO ++ ('}' :: rest))) := by
        rw [skipWs_space, skipWs_renderAt]
      have hskipc : skipWs ('\n' :: (indentAt dO ++ ('}' :: rest))) = '}' :: rest := by
        rw [skipWs_newline, skipWs_indentAt, skipWs_cons_false (by decide)]
      rw [harg]
      simp only [parseObjItems, parseStringBody_escStr,
        skipWs_cons_false (show isWsChar ':' = false by decide), hskipv, hv, hskipc]
  | (k, v), (k2, v2) :: ms2, d, dO, fuel, rest, hcv, hcms, hf => by
    cases fuel with
    | zero => exact absurd hf (Nat.not_lt_zero _)
    | succ f =>
      have hcs : canonJson v2 = true ∧ canonObj ms2 = true := by
        have : canonObj ((k2, v2) :: ms2) = (canonJson v2 && canonObj ms2) := rfl
        rw [this, Bool.and_eq_true] at hcms
        exact hcms
      have hf2 : (('"' :: (escStr k ++ ('"' :: ':' :: ' ' :: renderAt d v))) : List Char).length
          + ((',' :: '\n' :: (indentAt d ++ (renderKV d (k2, v2) ++ objRest d ms2))) : List Char).length
          + 1 < f + 1 := hf
      simp only [List.length_cons, List.length_append, indentAt, List.length_replicate] at hf2
      have hlv : (renderAt d v).length < f := by omega
      have htail : objRest d ((k2, v2) :: ms2) ++ ('\n' :: (indentAt dO ++ ('}' :: rest)))
          = ',' :: ('\n' :: (indentAt d ++ (renderKV d (k2, v2) ++
              (objRest d ms2 ++ ('\n' :: (indentAt dO ++ ('}' :: rest))))))) := by
        show ((',' :: '\n' :: (indentAt d ++ (renderKV d (k2, v2) ++ objRest d ms2))) : List Char) ++ _ = _
        simp [List.append_assoc]
      have harg : renderKV d (k, v) ++ (objRest d ((k2, v2) :: ms2) ++ ('\n' :: (indentAt dO ++ ('}' :: rest))))
          = '"' :: (escStr k ++ ('"' :: (':' :: (' ' ::
              (renderAt d v ++ (',' :: ('\n' :: (indentAt d ++ (renderKV d (k2, v2) ++
                (objRest d ms2 ++ ('\n' :: (indentAt dO ++ ('}' :: rest)))))))))))))  := by
        rw [htail]
        show (('"' :: (escStr k ++ ('"' :: ':' :: ' ' :: renderAt d v))) : List Char) ++ _ = _
        simp [List.append_assoc]
      have hv := rt_val v d f
        (',' :: ('\n' :: (indentAt d ++ (renderKV d (k2, v2) ++
          (objRest d ms2 ++ ('\n' :: (indentAt dO ++ ('}' :: rest)))))))) hcv hlv rfl
      have hskipv : skipWs (' ' :: (renderAt d v ++ (',' :: ('\n' :: (indentAt d ++ (renderKV d (k2, v2) ++
          (objRest d ms2 ++ ('\n' :: (indentAt dO ++ ('}' :: rest))))))))))
          = renderAt d v ++ (',' :: ('\n' :: (indentAt d ++ (renderKV d (k2, v2) ++
              (objRest d ms2 ++ ('\n' :: (indentAt dO ++ ('}' :: rest)))))))) := by
        rw [skipWs_space, skipWs_renderAt]
      have hskipm : skipWs ('\n' :: (indentAt d ++ (renderKV d (k2, v2) ++
          (objRest d ms2 ++ ('\n' :: (indentAt dO ++ ('}' :: rest)))))))
          = renderKV d (k2, v2) ++ (objRest d ms2 ++ ('\n' :: (indentAt dO ++ ('}' :: rest)))) := by
        rw [skipWs_newline, skipWs_indentAt, skipWs_renderKV]
      have hrec := rt_objItems (k2, v2) ms2 d dO f rest hcs.1 hcs.2 (by omega)
      rw [harg]
      simp only [parseObjItems, parseStringBody_escStr,
        skipWs_cons_false (show isWsChar ':' = false by decide), hskipv, hv,
        skipWs_cons_false (show isWsChar ',' = false by decide), hskipm, hrec]
termination_by m ms _ _ _ _ _ _ _ => sizeOf m + sizeOf ms

end

/-- Top-level codec round trip: `from_str` inverts `renderJson` on every
canonical value. -/
theorem from_str_renderJson (v : Json) (h : canonJson v = true) :
    from_str (renderJson v) = .ok v := by
  obtain ⟨c, t, hct, hws, _, _⟩ := renderAt_shape 0 v
  have hsk : skipWs (renderJson v) = renderJson v := by
    rw [renderJson, hct, skipWs_cons_false hws]
  have h1 := rt_val v 0 ((renderAt 0 v).length + 1) [] h (Nat.lt_succ_self _) rfl
  rw [List.append_nil] at h1
  rw [from_str, hsk, renderJson, h1]
  rfl

/-! Support lemmas about the filesystem model. -/

theorem resolve_agrees (env : Env) :
    resolve_app_dir_write env = resolve_app_dir_read env := rfl

theorem getFile_head (l : List (String × List Char)) (ds : List String)
    (p : String) (c : List Char) :
    getFile ⟨(p, c) :: l, ds⟩ p = some c := by
  simp [getFile, List.find?_cons_of_pos]

theorem find?_filter_ne (l : List (String × List Char)) (p q : String) (hq : q ≠ p) :
    (l.filter (fun e => e.1 ≠ p)).find? (fun e => e.1 = q)
      = l.find? (fun e => e.1 = q) := by
  induction l with
  | nil => rfl
  | cons a t ih =>
    by_cases hap : a.1 = p
    · have hf : (decide (a.1 ≠ p)) = false := by simp [hap]
      have hq2 : (decide (a.1 = q)) = false := by
        simp only [decide_eq_false_iff_not]
        rw [hap]
        exact fun he => hq he.symm
      rw [List.filter_cons, if_neg (by simp [hap]), List.find?_cons_of_neg _ (by simp [hq2]), ih]
    · rw [List.filter_cons, if_pos (by simp [hap])]
      by_cases haq : a.1 = q
      · rw [List.find?_cons_of_pos _ (by simp [haq]), List.find?_cons_of_pos _ (by simp [haq])]
      · rw [List.find?_cons_of_neg _ (by simp [haq]), List.find?_cons_of_neg _ (by simp [haq]), ih]

theorem getFile_write_other (fs : FS) (o : SysOracle) (p q : String) (c : List Char)
    (fs2 : FS) (hq : q ≠ p) (hw : fs_write o fs p c = .ok fs2) :
    getFile fs2 q = getFile fs q := by
  rw [fs_write] at hw
  cases ho : o.writeErr with
  | some e => rw [ho] at hw; cases hw
  | none =>
    rw [ho] at hw
    cases hw
    rw [getFile, getFile,
      List.find?_cons_of_neg _ (by simp only [decide_eq_true_eq]; exact fun he => hq he.symm),
      find?_filter_ne _ _ _ hq]

theorem fs_write_ok_shape (fs : FS) (o : SysOracle) (p : String) (c : List Char)
    (hw : o.writeErr = none) :
    fs_write o fs p c = .ok ⟨(p, c) :: fs.files.filter (fun e => e.1 ≠ p), fs.dirs⟩ := by
  rw [fs_write, hw]

/-- Shape of a fully successful write: the target file holds exactly the
rendered document, other files ride along, directories only grow, and the
resolved directory exists afterwards. -/
theorem write_json_file_ok (env : Env) (dir f : String) (v : Json) (fs : FS) (o : SysOracle)
    (hd : resolve_app_dir_write env = some dir)
    (hc : o.createDirErr = none) (hw : o.writeErr = none) :
    ∃ fsd : FS, write_json_file f v env fs o
        = some (.ok (), ⟨(pathJoin dir f, renderJson v) ::
            fsd.files.filter (fun e => e.1 ≠ pathJoin dir f), fsd.dirs⟩)
      ∧ fsd.files = fs.files
      ∧ fs.dirs ⊆ fsd.dirs
      ∧ dir ∈ fsd.dirs := by
  by_cases hdir : fs.dirs.contains dir
  · have hmem : dir ∈ fs.dirs := by
      rw [List.contains_eq_any_beq] at hdir
      simp only [List.any_eq_true, beq_iff_eq] at hdir
      obtain ⟨x, hx, hxe⟩ := hdir
      rwa [← hxe] at hx
    refine ⟨⟨fs.files, fs.dirs⟩, ?_, rfl, fun a ha => ha, hmem⟩
    rw [write_json_file, hd]
    simp only
    rw [create_dir_all, if_pos hdir]
    simp only [to_string_pretty]
    rw [fs_write_ok_shape _ _ _ _ hw]
  · refine ⟨⟨fs.files, dir :: (pathPrefixes dir ++ fs.dirs)⟩, ?_, rfl,
      fun a ha => List.mem_cons_of_mem _ (List.mem_append_right _ ha),
      List.mem_cons_self _ _⟩
    rw [write_json_file, hd]
    simp only
    rw [create_dir_all, if_neg hdir, hc]
    simp only [to_string_pretty]
    rw [fs_write_ok_shape _ _ _ _ hw]

/-- Successful read of a file that parses. -/
theorem read_json_file_ok (env : Env) (dir f : String) (fs : FS) (o : SysOracle)
    (c : List Char) (j : Json)
    (hd : resolve_app_dir_read env = some dir)
    (hget : getFile fs (pathJoin dir f) = some c) (hr : o.readErr = none)
    (hp : from_str c = .ok j) :
    read_json_file f env fs o = some (.ok j, fs) := by
  rw [read_json_file, hd]
  simp only
  rw [if_pos (by rw [fsExists, hget]; rfl)]
  rw [read_to_string, hr, hget]
  show (match from_str c with
    | Except.ok j2 => some (Except.ok j2, fs)
    | Except.error e2 => some (Except.error ("Failed to parse JSON: " ++ e2), fs)) = _
  rw [hp]

/-- Read of a file whose content does not parse as JSON. -/
theorem read_json_file_parse_error (env : Env) (dir f : String) (fs : FS) (o : SysOracle)
    (c : List Char) (e : String)
    (hd : resolve_app_dir_read env = some dir)
    (hget : getFile fs (pathJoin dir f) = some c) (hr : o.readErr = none)
    (hp : from_str c = .error e) :
    read_json_file f env fs o = some (.error ("Failed to parse JSON: " ++ e), fs) := by
  rw [read_json_file, hd]
  simp only
  rw [if_pos (by rw [fsExists, hget]; rfl)]
  rw [read_to_string, hr, hget]
  show (match from_str c with
    | Except.ok j2 => some (Except.ok j2, fs)
    | Except.error e2 => some (Except.error ("Failed to parse JSON: " ++ e2), fs)) = _
  rw [hp]

theorem contains_mem {l : List String} {a : String} (h : l.contains a = true) : a ∈ l := by
  rw [List.contains_eq_any_beq] at h
  simp only [List.any_eq_true, beq_iff_eq] at h
  obtain ⟨x, hx, hxe⟩ := h
  rwa [← hxe] at hx

theorem mem_contains {l : List String} {a : String} (h : a ∈ l) : l.contains a = true := by
  rw [List.contains_eq_any_beq]
  simp only [List.any_eq_true, beq_iff_eq]
  exact ⟨a, h, rfl⟩

theorem create_dir_all_files (o : SysOracle) (fs : FS) (p : String) (fsd : FS)
    (h : create_dir_all o fs p = .ok fsd) : fsd.files = fs.files := by
  rw [create_dir_all] at h
  by_cases hdir : fs.dirs.contains p
  · rw [if_pos hdir] at h
    cases h
    rfl
  · rw [if_neg hdir] at h
    cases hcr : o.createDirErr with
    | some e => rw [hcr] at h; cases h
    | none => rw [hcr] at h; cases h; rfl

theorem create_dir_all_ok (o : SysOracle) (fs : FS) (p : String) (fsd : FS)
    (hclosed : ∀ q ∈ fs.dirs, ∀ r ∈ pathPrefixes q, r ∈ fs.dirs)
    (h : create_dir_all o fs p = .ok fsd) :
    fsd.files = fs.files ∧ p ∈ fsd.dirs ∧ (∀ q ∈ pathPrefixes p, q ∈ fsd.dirs)
      ∧ fs.dirs ⊆ fsd.dirs := by
  have hfiles := create_dir_all_files o fs p fsd h
  rw [create_dir_all] at h
  by_cases hdir : fs.dirs.contains p
  · rw [if_pos hdir] at h
    cases h
    have hmem : p ∈ fs.dirs := contains_mem hdir
    exact ⟨rfl, hmem, fun q hq => hclosed p hmem q hq, fun a ha => ha⟩
  · rw [if_neg hdir] at h
    cases hcr : o.createDirErr with
    | some e => rw [hcr] at h; cases h
    | none =>
      rw [hcr] at h
      cases h
      exact ⟨rfl, List.mem_cons_self _ _,
        fun q hq => List.mem_cons_of_mem _ (List.mem_append_left _ hq),
        fun a ha => List.mem_cons_of_mem _ (List.mem_append_right _ ha)⟩

theorem create_dir_all_isSome (o : SysOracle) (fs : FS) (p : String)
    (hcd : o.createDirErr = none) : ∃ fsd, create_dir_all o fs p = .ok fsd := by
  rw [create_dir_all]
  by_cases hdir : fs.dirs.contains p
  · rw [if_pos hdir]
    exact ⟨fs, rfl⟩
  · rw [if_neg hdir, hcd]
    exact ⟨_, rfl⟩

/-- Shape of a write that reaches `fs::write` and fails there: the command
surfaces the OS text behind `Failed to write file:` and returns the
filesystem as it stood after directory creation. -/
theorem write_json_file_write_error (env : Env) (dir f : String) (v : Json)
    (fs fsd : FS) (o : SysOracle) (e : String)
    (hd : resolve_app_dir_write env = some dir)
    (hcr : create_dir_all o fs dir = .ok fsd)
    (hwe : o.writeErr = some e) :
    write_json_file f v env fs o = some (.error ("Failed to write file: " ++ e), fsd) := by
  rw [write_json_file, hd]
  simp only
  rw [hcr]
  simp only [to_string_pretty]
  rw [fs_write, hwe]

/-- Inversion of a successful write: directory creation succeeded and the
final filesystem holds the rendered document at the joined path, with every
other file untouched. -/
theorem write_json_file_ok_inv (env : Env) (dir f : String) (v : Json)
    (fs : FS) (o : SysOracle) (fs1 : FS)
    (hd : resolve_app_dir_write env = some dir)
    (hw : write_json_file f v env fs o = some (.ok (), fs1)) :
    ∃ fsd, create_dir_all o fs dir = .ok fsd ∧ fsd.files = fs.files ∧
      fs1 = ⟨(pathJoin dir f, renderJson v) ::
        fsd.files.filter (fun e => e.1 ≠ pathJoin dir f), fsd.dirs⟩ := by
  rw [write_json_file, hd] at hw
  simp only at hw
  cases hcr : create_dir_all o fs dir with
  | error e2 => rw [hcr] at hw; simp at hw
  | ok fsd =>
    rw [hcr] at hw
    simp only [to_string_pretty] at hw
    cases hwe : o.writeErr with
    | some e2 => rw [fs_write, hwe] at hw; simp at hw
    | none =>
      rw [fs_write_ok_shape _ _ _ _ hwe] at hw
      simp only [Option.some.injEq, Prod.mk.injEq] at hw
      exact ⟨fsd, rfl, create_dir_all_files o fs dir fsd hcr, hw.2.symm⟩

theorem write_json_file_isSome (env : Env) (f : String) (v : Json) (fs : FS) (o : SysOracle)
    (h : (resolve_app_dir_write env).isSome = true) :
    (write_json_file f v env fs o).isSome = true := by
  cases hd : resolve_app_dir_write env with
  | none => rw [hd] at h; cases h
  | some dir =>
    rw [write_json_file, hd]
    simp only
    cases hcr : create_dir_all o fs dir with
    | error e => simp
    | ok fsd =>
      simp only [to_string_pretty]
      cases hwe : o.writeErr with
      | some e => rw [fs_write, hwe]; simp
      | none => rw [fs_write_ok_shape _ _ _ _ hwe]; simp

theorem read_json_file_isSome (env : Env) (f : String) (fs : FS) (o : SysOracle)
    (h : (resolve_app_dir_read env).isSome = true) :
    (read_json_file f env fs o).isSome = true := by
  cases hd : resolve_app_dir_read env with
  | none => rw [hd] at h; cases h
  | some dir =>
    rw [read_json_file, hd]
    simp only
    by_cases hex : fsExists fs (pathJoin dir f)
    · rw [if_pos hex]
      cases hrd : read_to_string o fs (pathJoin dir f) with
      | error e => simp
      | ok contents =>
        cases hp : from_str contents with
        | ok j => simp [hp]
        | error e => simp [hp]
    · rw [if_neg hex]
      simp

theorem pathJoin_app (base seg : String) (h1 : base ≠ "") (h2 : base.data.getLast? ≠ some '/')
    (h3 : seg.data.head? ≠ some '/') : pathJoin base seg = base ++ ("/" ++ seg) := by
  rw [pathJoin, if_neg h3, if_neg h1, if_neg h2, String.append_assoc]

/-- C1: for every canonical JSON value `v` and filename `f`, under a fixed
environment whose directory resolution succeeds and an oracle where every
filesystem call succeeds, `write_json_file f v` followed by
`read_json_file f` returns a value structurally equal to `v`:
pretty-printed serialization followed by parsing is the identity.
(`canonJson` restricts the statement to the fragment on which the model
codec coincides with serde_json: exact integers in the `i64`/`u64` window
and sorted object keys — float payloads are outside the embedding.) -/
theorem write_read_roundtrip (env : Env) (dir f : String) (v : Json)
    (fs : FS) (o : SysOracle)
    (hd : resolve_app_dir_write env = some dir)
    (hv : canonJson v = true)
    (hc : o.createDirErr = none) (hw : o.writeErr = none) (hr : o.readErr = none) :
    ∃ fs1 : FS, write_json_file f v env fs o = some (.ok (), fs1) ∧
      read_json_file f env fs1 o = some (.ok v, fs1) := by
  obtain ⟨fsd, hwrite, _, _, _⟩ := write_json_file_ok env dir f v fs o hd hc hw
  exact ⟨_, hwrite, read_json_file_ok env dir f _ o (renderJson v) v
    (by rw [← resolve_agrees]; exact hd) (getFile_head _ _ _ _) hr (from_str_renderJson v hv)⟩

/-- Witness for C1 at a concrete environment, value and filesystem. -/
theorem write_read_roundtrip_witness :
    ∃ fs1 : FS, write_json_file "settings.json" (Json.obj [(['a'], Json.str ['x'])])
        ⟨[("APPDATA", "/tmp/appdata"), ("HOME", "/home/user")], some "/cwd"⟩
        ⟨[], []⟩ ⟨none, none, none⟩ = some (.ok (), fs1) ∧
      read_json_file "settings.json"
        ⟨[("APPDATA", "/tmp/appdata"), ("HOME", "/home/user")], some "/cwd"⟩
        fs1 ⟨none, none, none⟩
        = some (.ok (Json.obj [(['a'], Json.str ['x'])]), fs1) :=
  write_read_roundtrip
    ⟨[("APPDATA", "/tmp/appdata"), ("HOME", "/home/user")], some "/cwd"⟩
    "/tmp/appdata/ucanduit" "settings.json" (Json.obj [(['a'], Json.str ['x'])])
    ⟨[], []⟩ ⟨none, none, none⟩ rfl (by decide) rfl rfl rfl

/-- C2: directory resolution follows the three-level precedence — `APPDATA`
joined with `ucanduit` when set (regardless of `HOME`), else `HOME` joined
with `.ucanduit`, else the current working directory joined with `data` —
identically in both commands; in particular `APPDATA = /tmp/appdata` with
`HOME` also set resolves to `/tmp/appdata/ucanduit`. -/
theorem dir_resolution_precedence :
    (∀ env a, envVar env "APPDATA" = some a → a ≠ "" → a.data.getLast? ≠ some '/' →
      resolve_app_dir_write env = some (a ++ "/ucanduit") ∧
      resolve_app_dir_read env = some (a ++ "/ucanduit")) ∧
    (∀ env h, envVar env "APPDATA" = none → envVar env "HOME" = some h → h ≠ "" →
      h.data.getLast? ≠ some '/' →
      resolve_app_dir_write env = some (h ++ "/.ucanduit") ∧
      resolve_app_dir_read env = some (h ++ "/.ucanduit")) ∧
    (∀ env c, envVar env "APPDATA" = none → envVar env "HOME" = none → env.cwd = some c →
      c ≠ "" → c.data.getLast? ≠ some '/' →
      resolve_app_dir_write env = some (c ++ "/data") ∧
      resolve_app_dir_read env = some (c ++ "/data")) ∧
    resolve_app_dir_write ⟨[("APPDATA", "/tmp/appdata"), ("HOME", "/home/user")], some "/cwd"⟩
      = some "/tmp/appdata/ucanduit" := by
  refine ⟨?_, ?_, ?_, by decide⟩
  · intro env a hA h1 h2
    have hj : pathJoin a "ucanduit" = a ++ "/ucanduit" := by
      rw [pathJoin_app a "ucanduit" h1 h2 (by decide)]
      rfl
    constructor
    · simp only [resolve_app_dir_write, hA, hj]
    · simp only [resolve_app_dir_read, hA, hj]
  · intro env h hA hH h1 h2
    have hj : pathJoin h ".ucanduit" = h ++ "/.ucanduit" := by
      rw [pathJoin_app h ".ucanduit" h1 h2 (by decide)]
      rfl
    constructor
    · simp only [resolve_app_dir_write, hA, hH, hj]
    · simp only [resolve_app_dir_read, hA, hH, hj]
  · intro env c hA hH hc h1 h2
    have hj : pathJoin c "data" = c ++ "/data" := by
      rw [pathJoin_app c "data" h1 h2 (by decide)]
      rfl
    constructor
    · simp only [resolve_app_dir_write, hA, hH, hc, hj]
    · simp only [resolve_app_dir_read, hA, hH, hc, hj]

/-- Witness for C2: each precedence level at concrete environments. -/
theorem dir_resolution_precedence_witness :
    resolve_app_dir_write ⟨[("APPDATA", "/ad"), ("HOME", "/h")], some "/c"⟩
      = some ("/ad" ++ "/ucanduit") ∧
    resolve_app_dir_read ⟨[("HOME", "/h")], some "/c"⟩ = some ("/h" ++ "/.ucanduit") ∧
    resolve_app_dir_write ⟨[], some "/c"⟩ = some ("/c" ++ "/data") :=
  ⟨(dir_resolution_precedence.1 ⟨[("APPDATA", "/ad"), ("HOME", "/h")], some "/c"⟩
      "/ad" rfl (by decide) (by decide)).1,
   (dir_resolution_precedence.2.1 ⟨[("HOME", "/h")], some "/c"⟩
      "/h" rfl rfl (by decide) (by decide)).2,
   (dir_resolution_precedence.2.2.1 ⟨[], some "/c"⟩
      "/c" rfl rfl rfl (by decide) (by decide)).1⟩

/-- Counterexample to C3 as stated: two environment snapshots with
identical values of the consulted environment variables (`APPDATA` and
`HOME`, both unset) resolve to different application directories, because
the fallback branch reads the process working directory, which is process
state obtained by a `std::env::current_dir()` syscall, not an environment
variable. -/
theorem resolution_cwd_dependence :
    envVar ⟨[], some "/a"⟩ "APPDATA" = envVar ⟨[], some "/b"⟩ "APPDATA" ∧
    envVar ⟨[], some "/a"⟩ "HOME" = envVar ⟨[], some "/b"⟩ "HOME" ∧
    resolve_app_dir_write ⟨[], some "/a"⟩ ≠ resolve_app_dir_write ⟨[], some "/b"⟩ ∧
    resolve_app_dir_read ⟨[], some "/a"⟩ ≠ resolve_app_dir_read ⟨[], some "/b"⟩ :=
  ⟨rfl, rfl, by decide, by decide⟩

/-- C3 (amended): directory resolution consults exactly the `APPDATA` and
`HOME` environment variables plus the current working directory, and is a
pure function of those three: two snapshots agreeing on them — whatever
their other variables — resolve identically, in `write_json_file` and
`read_json_file` alike, independent of any filesystem state (neither
resolution function receives the filesystem at all). -/
theorem resolution_pure (e1 e2 : Env)
    (hA : envVar e1 "APPDATA" = envVar e2 "APPDATA")
    (hH : envVar e1 "HOME" = envVar e2 "HOME")
    (hC : e1.cwd = e2.cwd) :
    resolve_app_dir_write e1 = resolve_app_dir_write e2 ∧
    resolve_app_dir_read e1 = resolve_app_dir_read e2 ∧
    resolve_app_dir_write e1 = resolve_app_dir_read e1 := by
  have hw : resolve_app_dir_write e1 = resolve_app_dir_write e2 := by
    rw [resolve_app_dir_write, resolve_app_dir_write, hA, hH, hC]
  exact ⟨hw, by rw [← resolve_agrees, ← resolve_agrees]; exact hw, resolve_agrees e1⟩

/-- Witness for the amended C3: two snapshots agreeing on the consulted
state but differing in an unrelated variable resolve identically. -/
theorem resolution_pure_witness :
    resolve_app_dir_write ⟨[("HOME", "/h")], some "/c"⟩
      = resolve_app_dir_write ⟨[("HOME", "/h"), ("SHELL", "/bin/sh")], some "/c"⟩ :=
  (resolution_pure ⟨[("HOME", "/h")], some "/c"⟩
    ⟨[("HOME", "/h"), ("SHELL", "/bin/sh")], some "/c"⟩ rfl rfl rfl).1

/-- Counterexample to C4 as stated: with neither `APPDATA` nor `HOME` set
and the current-working-directory lookup failing, both commands panic (the
`.unwrap()` on `std::env::current_dir()` at `lib.rs:13` and `lib.rs:44`)
instead of returning an error string — modelled as the `none` result. -/
theorem commands_panic_on_cwd_failure :
    write_json_file "settings.json" Json.null ⟨[], none⟩ ⟨[], []⟩ ⟨none, none, none⟩ = none ∧
    read_json_file "settings.json" ⟨[], none⟩ ⟨[], []⟩ ⟨none, none, none⟩ = none :=
  ⟨rfl, rfl⟩

/-- C4 (amended): whenever directory resolution does not hit the
`current_dir().unwrap()` panic — that is, `APPDATA` or `HOME` is set, or
the working-directory lookup succeeds — every outcome of both commands is
non-fatal: each returns a value, either a success or an error string, for
every filesystem state and every injected OS failure. -/
theorem commands_total_without_panic (env : Env) (f : String) (v : Json)
    (fs : FS) (o : SysOracle)
    (h : (envVar env "APPDATA").isSome = true ∨ (envVar env "HOME").isSome = true ∨
      env.cwd.isSome = true) :
    (write_json_file f v env fs o).isSome = true ∧
    (read_json_file f env fs o).isSome = true := by
  have hres : (resolve_app_dir_write env).isSome = true := by
    rw [resolve_app_dir_write]
    cases hA : envVar env "APPDATA" with
    | some a => rfl
    | none =>
      cases hH : envVar env "HOME" with
      | some hh => rfl
      | none =>
        cases hc : env.cwd with
        | some c => rfl
        | none => rw [hA, hH, hc] at h; simp at h
  exact ⟨write_json_file_isSome env f v fs o hres,
    read_json_file_isSome env f fs o (by rw [← resolve_agrees]; exact hres)⟩

/-- Witness for the amended C4: with `HOME` set the commands return a value
even under injected OS failures. -/
theorem commands_total_without_panic_witness :
    (write_json_file "a.json" Json.null ⟨[("HOME", "/h")], none⟩ ⟨[], []⟩
      ⟨some "denied", some "denied", some "denied"⟩).isSome = true ∧
    (read_json_file "a.json" ⟨[("HOME", "/h")], none⟩ ⟨[], []⟩
      ⟨some "denied", some "denied", some "denied"⟩).isSome = true :=
  commands_total_without_panic _ _ _ _ _ (Or.inr (Or.inl rfl))

/-- C5: reading a filename whose joined path does not exist fails with the
not-found message naming exactly the filename (not the full path), and the
call mutates nothing — the returned filesystem is the argument itself, so
an application directory absent before the call is still absent after. -/
theorem read_missing_file (env : Env) (dir f : String) (fs : FS) (o : SysOracle)
    (hd : resolve_app_dir_read env = some dir)
    (hex : fsExists fs (pathJoin dir f) = false) :
    read_json_file f env fs o = some (.error ("File does not exist: " ++ f), fs) ∧
    (dir ∉ fs.dirs → ∀ res fs1, read_json_file f env fs o = some (res, fs1) →
      dir ∉ fs1.dirs) := by
  have heq : read_json_file f env fs o = some (.error ("File does not exist: " ++ f), fs) := by
    rw [read_json_file, hd]
    simp only
    rw [if_neg (by rw [hex]; exact Bool.false_ne_true)]
  refine ⟨heq, fun hnd res fs1 hread => ?_⟩
  rw [heq] at hread
  simp only [Option.some.injEq, Prod.mk.injEq] at hread
  rw [← hread.2]
  exact hnd

/-- Witness for C5: a fresh filesystem, `HOME`-based resolution. -/
theorem read_missing_file_witness :
    read_json_file "never-written.json" ⟨[("HOME", "/home/user")], some "/cwd"⟩ ⟨[], []⟩
      ⟨none, none, none⟩
      = some (.error ("File does not exist: " ++ "never-written.json"), ⟨[], []⟩) :=
  (read_missing_file ⟨[("HOME", "/home/user")], some "/cwd"⟩ "/home/user/.ucanduit"
    "never-written.json" ⟨[], []⟩ ⟨none, none, none⟩ rfl rfl).1

/-- C6: `write_json_file` first ensures the application directory and all
missing ancestors exist — after any successful write they are all present;
the creation step is idempotent, succeeding silently when the directory
already exists (so only serialization or the file write can fail then);
and when creation does fail the command aborts with the OS error text
behind `Failed to create app directory:` and persists nothing — the
returned filesystem is the argument unchanged.  (`hclosed` is the ambient
filesystem invariant that an existing directory has existing ancestors.) -/
theorem write_creates_directory (env : Env) (dir f : String) (v : Json)
    (fs : FS) (o : SysOracle)
    (hd : resolve_app_dir_write env = some dir)
    (hclosed : ∀ p ∈ fs.dirs, ∀ q ∈ pathPrefixes p, q ∈ fs.dirs) :
    (∀ fs1, write_json_file f v env fs o = some (.ok (), fs1) →
      dir ∈ fs1.dirs ∧ ∀ q ∈ pathPrefixes dir, q ∈ fs1.dirs) ∧
    (dir ∈ fs.dirs →
      (∃ fs1, write_json_file f v env fs o = some (.ok (), fs1)) ∨
      (∃ e fs1, write_json_file f v env fs o
        = some (.error ("Failed to write file: " ++ e), fs1))) ∧
    (∀ e, o.createDirErr = some e → dir ∉ fs.dirs →
      write_json_file f v env fs o
        = some (.error ("Failed to create app directory: " ++ e), fs)) := by
  refine ⟨?_, ?_, ?_⟩
  · intro fs1 hw
    obtain ⟨fsd, hcr, _, hshape⟩ := write_json_file_ok_inv env dir f v fs o fs1 hd hw
    obtain ⟨_, hmem, hanc, _⟩ := create_dir_all_ok o fs dir fsd hclosed hcr
    subst hshape
    exact ⟨hmem, hanc⟩
  · intro hmem
    have hcr : create_dir_all o fs dir = .ok fs := by
      rw [create_dir_all, if_pos (mem_contains hmem)]
    cases hwe : o.writeErr with
    | some e =>
      exact Or.inr ⟨e, fs, write_json_file_write_error env dir f v fs fs o e hd hcr hwe⟩
    | none =>
      have heq : write_json_file f v env fs o = some (.ok (),
          ⟨(pathJoin dir f, renderJson v) ::
            fs.files.filter (fun e => e.1 ≠ pathJoin dir f), fs.dirs⟩) := by
        rw [write_json_file, hd]
        simp only
        rw [hcr]
        simp only [to_string_pretty]
        rw [fs_write_ok_shape _ _ _ _ hwe]
      exact Or.inl ⟨_, heq⟩
  · intro e hcd hnd
    rw [write_json_file, hd]
    simp only
    rw [create_dir_all, if_neg (fun hc => hnd (contains_mem hc)), hcd]

/-- Witness for C6: a failing `create_dir_all` on a fresh filesystem
surfaces the OS text and leaves the filesystem untouched. -/
theorem write_creates_directory_witness :
    write_json_file "a.json" Json.null ⟨[("HOME", "/h")], some "/c"⟩ ⟨[], []⟩
      ⟨some "Permission denied (os error 13)", none, none⟩
      = some (.error ("Failed to create app directory: " ++ "Permission denied (os error 13)"),
          ⟨[], []⟩) :=
  (write_creates_directory ⟨[("HOME", "/h")], some "/c"⟩ "/h/.ucanduit" "a.json" Json.null
    ⟨[], []⟩ ⟨some "Permission denied (os error 13)", none, none⟩ rfl
    (by simp)).2.2 "Permission denied (os error 13)" rfl (by simp)

/-- C7: reading a filename whose file exists and is readable but whose
content is not valid JSON fails with the parser error text behind
`Failed to parse JSON:`, and the call mutates nothing — the returned
filesystem (holding the file content) is the argument itself. -/
theorem read_invalid_json (env : Env) (dir f : String) (fs : FS) (o : SysOracle)
    (c : List Char) (e : String)
    (hd : resolve_app_dir_read env = some dir)
    (hget : getFile fs (pathJoin dir f) = some c) (hr : o.readErr = none)
    (hp : from_str c = .error e) :
    read_json_file f env fs o = some (.error ("Failed to parse JSON: " ++ e), fs) :=
  read_json_file_parse_error env dir f fs o c e hd hget hr hp

/-- Witness for C7: a file holding `not json`. -/
theorem read_invalid_json_witness :
    read_json_file "bad.json" ⟨[("HOME", "/home/user")], some "/cwd"⟩
      ⟨[("/home/user/.ucanduit/bad.json", "not json".toList)], []⟩ ⟨none, none, none⟩
      = some (.error ("Failed to parse JSON: " ++ "invalid literal"),
          ⟨[("/home/user/.ucanduit/bad.json", "not json".toList)], []⟩) :=
  read_invalid_json ⟨[("HOME", "/home/user")], some "/cwd"⟩ "/home/user/.ucanduit" "bad.json"
    ⟨[("/home/user/.ucanduit/bad.json", "not json".toList)], []⟩ ⟨none, none, none⟩
    ("not json".toList) "invalid literal" rfl rfl rfl rfl

/-- C8: writes truncate and overwrite — writing `v1` then `v2` under the
same filename and environment, then reading, yields `v2`: the last write
wins with no merging of the previous content. -/
theorem overwrite_last_write_wins (env : Env) (dir f : String) (v1 v2 : Json)
    (fs : FS) (o : SysOracle)
    (hd : resolve_app_dir_write env = some dir)
    (hv2 : canonJson v2 = true)
    (hc : o.createDirErr = none) (hw : o.writeErr = none) (hr : o.readErr = none) :
    ∃ fs1 fs2 : FS, write_json_file f v1 env fs o = some (.ok (), fs1) ∧
      write_json_file f v2 env fs1 o = some (.ok (), fs2) ∧
      read_json_file f env fs2 o = some (.ok v2, fs2) := by
  obtain ⟨fsd1, hw1, _, _, _⟩ := write_json_file_ok env dir f v1 fs o hd hc hw
  obtain ⟨fsd2, hw2, _, _, _⟩ := write_json_file_ok env dir f v2 _ o hd hc hw
  exact ⟨_, _, hw1, hw2, read_json_file_ok env dir f _ o (renderJson v2) v2
    (by rw [← resolve_agrees]; exact hd) (getFile_head _ _ _ _) hr
    (from_str_renderJson v2 hv2)⟩

/-- Witness for C8 at concrete values. -/
theorem overwrite_last_write_wins_witness :
    ∃ fs1 fs2 : FS, write_json_file "doc.json" Json.null
        ⟨[("HOME", "/h")], some "/c"⟩ ⟨[], []⟩ ⟨none, none, none⟩ = some (.ok (), fs1) ∧
      write_json_file "doc.json" (Json.str ['h', 'i'])
        ⟨[("HOME", "/h")], some "/c"⟩ fs1 ⟨none, none, none⟩ = some (.ok (), fs2) ∧
      read_json_file "doc.json" ⟨[("HOME", "/h")], some "/c"⟩ fs2 ⟨none, none, none⟩
        = some (.ok (Json.str ['h', 'i']), fs2) :=
  overwrite_last_write_wins ⟨[("HOME", "/h")], some "/c"⟩ "/h/.ucanduit" "doc.json"
    Json.null (Json.str ['h', 'i']) ⟨[], []⟩ ⟨none, none, none⟩ rfl (by decide) rfl rfl rfl

/-- C9: the filename is an opaque path segment — both commands target
exactly the join of the resolved directory with the filename, with no
validation or sanitization: a successful write persists the document at
that exact path and touches no other, a read consults that exact path, and
a traversal segment such as `../../etc/passwd` passes through the join
unmodified. -/
theorem filename_opaque_segment :
    (∀ env dir f v fs o, resolve_app_dir_write env = some dir →
      o.createDirErr = none → o.writeErr = none →
      ∃ fs1, write_json_file f v env fs o = some (.ok (), fs1) ∧
        getFile fs1 (pathJoin dir f) = some (renderJson v) ∧
        ∀ q, q ≠ pathJoin dir f → getFile fs1 q = getFile fs q) ∧
    (∀ env dir f fs o, resolve_app_dir_read env = some dir →
      fsExists fs (pathJoin dir f) = false →
      read_json_file f env fs o = some (.error ("File does not exist: " ++ f), fs)) ∧
    pathJoin "/home/user/.ucanduit" "../../etc/passwd"
      = "/home/user/.ucanduit/../../etc/passwd" := by
  refine ⟨?_, ?_, by decide⟩
  · intro env dir f v fs o hd hc hw
    obtain ⟨fsd, hwrite, hfiles, _, _⟩ := write_json_file_ok env dir f v fs o hd hc hw
    refine ⟨_, hwrite, getFile_head _ _ _ _, ?_⟩
    intro q hq
    show getFile ⟨(pathJoin dir f, renderJson v) ::
      fsd.files.filter (fun e => e.1 ≠ pathJoin dir f), fsd.dirs⟩ q = getFile fs q
    simp only [getFile]
    rw [List.find?_cons_of_neg _ (by simp only [decide_eq_true_eq]; exact fun he => hq he.symm),
      find?_filter_ne _ _ _ hq, hfiles]
  · intro env dir f fs o hd hex
    rw [read_json_file, hd]
    simp only
    rw [if_neg (by rw [hex]; exact Bool.false_ne_true)]

/-- Witness for C9: the read conjunct at a traversal filename and the
concrete join. -/
theorem filename_opaque_segment_witness :
    read_json_file "../../etc/passwd" ⟨[("HOME", "/home/user")], some "/cwd"⟩ ⟨[], []⟩
      ⟨none, none, none⟩
      = some (.error ("File does not exist: " ++ "../../etc/passwd"), ⟨[], []⟩) ∧
    (∃ fs1, write_json_file "../../etc/passwd" Json.null
        ⟨[("HOME", "/home/user")], some "/cwd"⟩ ⟨[], []⟩ ⟨none, none, none⟩
        = some (.ok (), fs1) ∧
      getFile fs1 (pathJoin "/home/user/.ucanduit" "../../etc/passwd")
        = some (renderJson Json.null) ∧
      ∀ q, q ≠ pathJoin "/home/user/.ucanduit" "../../etc/passwd" →
        getFile fs1 q = getFile ⟨[], []⟩ q) :=
  ⟨filename_opaque_segment.2.1 ⟨[("HOME", "/home/user")], some "/cwd"⟩
      "/home/user/.ucanduit" "../../etc/passwd" ⟨[], []⟩ ⟨none, none, none⟩ rfl rfl,
   filename_opaque_segment.1 ⟨[("HOME", "/home/user")], some "/cwd"⟩
      "/home/user/.ucanduit" "../../etc/passwd" Json.null ⟨[], []⟩ ⟨none, none, none⟩
      rfl rfl rfl⟩

/-- C10: the write is not atomic in its directory side effect — when the
directory-creation step has succeeded and the file write then fails, the
command reports `Failed to write file:` with the OS text, the application
directory and all its ancestors exist in the returned filesystem, and only
the files are untouched (exactly the argument filesystem's files). -/
theorem failed_write_keeps_directories (env : Env) (dir f : String) (v : Json)
    (fs : FS) (o : SysOracle) (e : String)
    (hd : resolve_app_dir_write env = some dir)
    (hclosed : ∀ p ∈ fs.dirs, ∀ q ∈ pathPrefixes p, q ∈ fs.dirs)
    (hcd : o.createDirErr = none) (hwe : o.writeErr = some e) :
    ∃ fs1, write_json_file f v env fs o
        = some (.error ("Failed to write file: " ++ e), fs1) ∧
      dir ∈ fs1.dirs ∧ (∀ q ∈ pathPrefixes dir, q ∈ fs1.dirs) ∧
      fs1.files = fs.files := by
  obtain ⟨fsd, hcr⟩ := create_dir_all_isSome o fs dir hcd
  obtain ⟨hfiles, hmem, hanc, _⟩ := create_dir_all_ok o fs dir fsd hclosed hcr
  exact ⟨fsd, write_json_file_write_error env dir f v fs fsd o e hd hcr hwe,
    hmem, hanc, hfiles⟩

/-- Witness for C10 at a concrete failing write. -/
theorem failed_write_keeps_directories_witness :
    ∃ fs1, write_json_file "a.json" Json.null ⟨[("HOME", "/h")], some "/c"⟩ ⟨[], []⟩
        ⟨none, some "No space left on device (os error 28)", none⟩
        = some (.error ("Failed to write file: " ++ "No space left on device (os error 28)"), fs1) ∧
      "/h/.ucanduit" ∈ fs1.dirs ∧
      (∀ q ∈ pathPrefixes "/h/.ucanduit", q ∈ fs1.dirs) ∧
      fs1.files = FS.files ⟨[], []⟩ :=
  failed_write_keeps_directories ⟨[("HOME", "/h")], some "/c"⟩ "/h/.ucanduit" "a.json"
    Json.null ⟨[], []⟩ ⟨none, some "No space left on device (os error 28)", none⟩
    "No space left on device (os error 28)" rfl (by simp) rfl rfl

end Ucanduit
